import Mathlib

/-!
# Dpotrs: solving `A * X = B` from a Cholesky factor

A shallow embedding of `lapack/gonum/dpotrs.go`.

* Go slices are lists over a type `K` of scalars; a call receives the factor
  buffer `a` and the right-hand-side buffer `b` and leaves an `Outcome`: the
  two buffers as they are when the call ends, and the panic that ended it, if
  any.
* Go `int` arguments (`n`, `nrhs`, `lda`, `ldb`) are integers.
* The triangular solve `Dtrsm` is a parameter of `Dpotrs` (an injected
  capability); `Dtrsm` below is the exact reference solve over a field.
-/

namespace Gonum

/-! ## Enumerations of package `blas` -/

/-- Modelled from the spec: the declaration of `blas.Uplo` is not in the given
sources. The mode is an enum with the two recognised values `Upper` and
`Lower`; being an integer type in Go, it has further values, all of them
invalid, which `other` stands for. -/
inductive Uplo where
  | Upper
  | Lower
  | other (code : Int)
  deriving DecidableEq

/-- Modelled from the spec: the declaration of `blas.Side` is not in the given
sources; the side from which the triangular matrix is applied. -/
inductive Side where
  | Left
  | Right
  deriving DecidableEq

/-- Modelled from the spec: the declaration of `blas.Transpose` is not in the
given sources; whether the triangular matrix is used transposed. -/
inductive Transpose where
  | NoTrans
  | Trans
  | ConjTrans
  deriving DecidableEq

/-- Modelled from the spec: the declaration of `blas.Diag` is not in the given
sources; whether the diagonal is taken from the buffer or assumed to be one. -/
inductive Diag where
  | NonUnit
  | Unit
  deriving DecidableEq

/-! ## Failures and outcomes -/

/-- The ways a call can panic: `badUplo` is the panic of `Dpotrs` on an
unrecognised mode, `dimension` the failure of the shape validator, `solver` a
failure raised inside the triangular-solve primitive. -/
inductive Failure where
  | badUplo
  | dimension
  | solver
  deriving DecidableEq

/-- The memory a call leaves behind: the factor buffer, the right-hand-side
buffer, and the panic that ended the call (`none` for a normal return). -/
structure Outcome (K : Type) where
  a : List K
  b : List K
  err : Option Failure

/-- The type of a triangular-solve primitive, with the argument order of
`Dtrsm(side, uplo, trans, diag, m, n, alpha, a, lda, b, ldb)`. -/
abbrev Solver (K : Type) : Type :=
  Side → Uplo → Transpose → Diag → Int → Int → K → List K → Int → List K → Int → Outcome K

/-! ## The shape validator -/

/-- Modelled from the spec: `checkMatrix` is called by `Dpotrs` but its body is
not in the given sources. The validator `validate(rows, cols, buffer, stride)`
fails if the buffer is too small for `stride·(rows-1) + cols` elements, or if
`stride < max(1, cols)`. -/
def checkMatrix {K : Type} (m n : Int) (a : List K) (lda : Int) : Option Failure :=
  if lda < max 1 n then some Failure.dimension
  else if (a.length : Int) < lda * (m - 1) + n then some Failure.dimension
  else none

/-! ## Dpotrs -/

/-- The function `Dpotrs` of `dpotrs.go`, over an injected triangular solve. -/
def Dpotrs {K : Type} [One K] (dtrsm : Solver K) (uplo : Uplo) (n nrhs : Int)
    (a : List K) (lda : Int) (b : List K) (ldb : Int) : Outcome K :=
  if uplo ≠ Uplo.Upper ∧ uplo ≠ Uplo.Lower then ⟨a, b, some Failure.badUplo⟩
  else
    match checkMatrix n n a lda with
    | some e => ⟨a, b, some e⟩
    | none =>
      match checkMatrix n nrhs b ldb with
      | some e => ⟨a, b, some e⟩
      | none =>
        if n = 0 ∨ nrhs = 0 then ⟨a, b, none⟩
        else if uplo = Uplo.Upper then
          let r := dtrsm Side.Left Uplo.Upper Transpose.Trans Diag.NonUnit n nrhs 1 a lda b ldb
          match r.err with
          | some _ => r
          | none =>
            dtrsm Side.Left Uplo.Upper Transpose.NoTrans Diag.NonUnit n nrhs 1 r.a lda r.b ldb
        else
          let r := dtrsm Side.Left Uplo.Lower Transpose.NoTrans Diag.NonUnit n nrhs 1 a lda b ldb
          match r.err with
          | some _ => r
          | none =>
            dtrsm Side.Left Uplo.Lower Transpose.Trans Diag.NonUnit n nrhs 1 r.a lda r.b ldb

/-! ## The reference triangular solve -/

/-- Reading a buffer at a position. -/
def rd {K : Type} [Zero K] (x : List K) (p : Nat) : K := x.getD p 0

/-- The entry `(i, k)` of `op(T)`: of the matrix stored in `a` with stride
`lda`, transposed when `tr` is set. -/
def opEntry {K : Type} [Zero K] (a : List K) (lda : Nat) (tr : Bool) (i k : Nat) : K :=
  if tr then rd a (k * lda + i) else rd a (i * lda + k)

/-- One step of substitution: the unknown `u` of the system `s` is computed
from the scaled right-hand side and the unknowns `0 .. u-1` already in the
buffer, and is written in place. -/
def substEntry {K : Type} [Field K] (coef : Nat → Nat → K) (unitDiag : Bool) (alpha : K)
    (pos : Nat → Nat → Nat) (u s : Nat) (x : List K) : List K :=
  let acc := (List.range u).foldl (fun t k => t - coef u k * rd x (pos k s)) (alpha * rd x (pos u s))
  x.set (pos u s) (if unitDiag then acc else acc / coef u u)

/-- The unknown `u` of every system `0 .. S-1`. -/
def substRow {K : Type} [Field K] (coef : Nat → Nat → K) (unitDiag : Bool) (alpha : K)
    (pos : Nat → Nat → Nat) (S u : Nat) (x : List K) : List K :=
  (List.range S).foldl (fun y s => substEntry coef unitDiag alpha pos u s y) x

/-- Forward substitution for `S` systems in `U` unknowns with the lower
triangular coefficients `coef u k`, `k ≤ u`; the unknown `u` of the system `s`
lives at `pos u s`. -/
def forwardSubst {K : Type} [Field K] (coef : Nat → Nat → K) (unitDiag : Bool) (alpha : K)
    (pos : Nat → Nat → Nat) (U S : Nat) (x : List K) : List K :=
  (List.range U).foldl (fun y u => substRow coef unitDiag alpha pos S u y) x

/-- The reference solve on natural-number shapes. The unknowns are the rows of
`b` for a solve from the left and its columns for a solve from the right; a
system whose matrix is upper triangular is solved by back substitution, which
is forward substitution on the unknowns taken in the opposite order. -/
def dtrsmCore {K : Type} [Field K] (s : Side) (ul : Uplo) (tA : Transpose) (d : Diag)
    (m n : Nat) (alpha : K) (a : List K) (lda : Nat) (b : List K) (ldb : Nat) : List K :=
  let tr : Bool := decide (tA ≠ Transpose.NoTrans)
  let left : Bool := decide (s = Side.Left)
  let U : Nat := if left then m else n
  let S : Nat := if left then n else m
  -- the matrix of the systems is `op(T)` from the left and its transpose from the right
  let trEff : Bool := if left then tr else !tr
  let lowerEff : Bool := (decide (ul = Uplo.Lower)) != trEff
  let ord : Nat → Nat := fun u => if lowerEff then u else U - 1 - u
  let coef : Nat → Nat → K := fun u k => opEntry a lda trEff (ord u) (ord k)
  let pos : Nat → Nat → Nat :=
    fun u t => if left then ord u * ldb + t else t * ldb + ord u
  forwardSubst coef (decide (d = Diag.Unit)) alpha pos U S b

/-- The preconditions of the reference solve: a recognised triangle,
nonnegative sizes, strides at least `max(1, size)` and buffers long enough
for their shapes. -/
def dtrsmPre {K : Type} (s : Side) (ul : Uplo) (m n : Int) (a : List K) (lda : Int)
    (b : List K) (ldb : Int) : Prop :=
  let k : Int := if s = Side.Left then m else n
  (ul = Uplo.Upper ∨ ul = Uplo.Lower) ∧ 0 ≤ m ∧ 0 ≤ n ∧ max 1 k ≤ lda ∧ max 1 n ≤ ldb ∧
    lda * (k - 1) + k ≤ (a.length : Int) ∧ ldb * (m - 1) + n ≤ (b.length : Int)

instance {K : Type} (s : Side) (ul : Uplo) (m n : Int) (a : List K) (lda : Int)
    (b : List K) (ldb : Int) : Decidable (dtrsmPre s ul m n a lda b ldb) :=
  inferInstanceAs (Decidable (_ ∧ _))

/-- Modelled from the spec: the triangular-solve primitive `Dtrsm` of package
`blas` is called by `Dpotrs` but is not in the given sources.
`solveTriangular(side, triangle, transpose, unitDiagonal, m, k, α, T, strideT, X, strideX)`
solves `op(T)·X = αB` or `X·op(T) = αB` for a triangular matrix `T`, in place,
by forward/back substitution; it reads `T` and writes `X` only. The spec
gives the primitive no behaviour on shapes outside `dtrsmPre`; here such a
call fails with `solver` before anything is written. -/
def Dtrsm {K : Type} [Field K] : Solver K :=
  fun s ul tA d m n alpha a lda b ldb =>
    if dtrsmPre s ul m n a lda b ldb then
      ⟨a, dtrsmCore s ul tA d m.toNat n.toNat alpha a lda.toNat b ldb.toNat, none⟩
    else ⟨a, b, some Failure.solver⟩

/-- The value substitution gives the unknown `u`: the scaled right-hand side
`rhs`, minus the contributions of the unknowns `r 0 .. r (u-1)`, divided by
the diagonal coefficient unless the diagonal is taken to be one. -/
def substVal {K : Type} [Field K] (coef : Nat → Nat → K) (unitDiag : Bool) (alpha : K)
    (rhs : K) (r : Nat → K) (u : Nat) : K :=
  if unitDiag then alpha * rhs - ∑ k in Finset.range u, coef u k * r k
  else (alpha * rhs - ∑ k in Finset.range u, coef u k * r k) / coef u u

/-! ## Matrices held by buffers -/

/-- The upper triangle of the `n × n` matrix stored in `a` with stride `lda`;
the entries below the diagonal are taken to be zero. -/
def upperTriangle {K : Type} [Zero K] (a : List K) (lda n : Nat) : Matrix (Fin n) (Fin n) K :=
  Matrix.of fun i j => if i.val ≤ j.val then rd a (i.val * lda + j.val) else 0

/-- The lower triangle of the `n × n` matrix stored in `a` with stride `lda`;
the entries above the diagonal are taken to be zero. -/
def lowerTriangle {K : Type} [Zero K] (a : List K) (lda n : Nat) : Matrix (Fin n) (Fin n) K :=
  Matrix.of fun i j => if j.val ≤ i.val then rd a (i.val * lda + j.val) else 0

/-- The `n × nrhs` matrix stored in `b` with stride `ldb`. -/
def rhsMatrix {K : Type} [Zero K] (b : List K) (ldb n nrhs : Nat) : Matrix (Fin n) (Fin nrhs) K :=
  Matrix.of fun i j => rd b (i.val * ldb + j.val)

/-- The entry `(i, j)` lies in the triangle the mode selects: on or above the
diagonal for `Upper`, on or below it for `Lower`. -/
def inTriangle (uplo : Uplo) (i j : Nat) : Prop :=
  (uplo = Uplo.Upper ∧ i ≤ j) ∨ (uplo = Uplo.Lower ∧ j ≤ i)

/-! ## The reference solve with every buffer access checked -/

/-- The entry `(i, k)` of `op(T)` read with a bounds check: `none` when the
position is outside the buffer `a`. -/
def opEntryChecked {K : Type} (a : List K) (lda : Nat) (tr : Bool) (i k : Nat) : Option K :=
  if tr then a[k * lda + i]? else a[i * lda + k]?

/-- The step `substEntry` with every access to the buffers checked: the result
is `none` as soon as a coefficient or a position of `x` that the step reads or
writes is out of range. -/
def substEntryChecked {K : Type} [Field K] (coef : Nat → Nat → Option K) (unitDiag : Bool)
    (alpha : K) (pos : Nat → Nat → Nat) (u s : Nat) (x : List K) : Option (List K) :=
  (x[pos u s]?).bind fun r₀ =>
    ((List.range u).foldlM
      (fun t k => (coef u k).bind fun c => (x[pos k s]?).bind fun v => some (t - c * v))
      (alpha * r₀)).bind fun acc =>
    (if unitDiag then some acc else (coef u u).bind fun dg => some (acc / dg)).bind fun v =>
    some (x.set (pos u s) v)

/-- The loop `substRow` over the checked step. -/
def substRowChecked {K : Type} [Field K] (coef : Nat → Nat → Option K) (unitDiag : Bool)
    (alpha : K) (pos : Nat → Nat → Nat) (S u : Nat) (x : List K) : Option (List K) :=
  (List.range S).foldlM (fun y s => substEntryChecked coef unitDiag alpha pos u s y) x

/-- The loop `forwardSubst` over the checked rows. -/
def forwardSubstChecked {K : Type} [Field K] (coef : Nat → Nat → Option K) (unitDiag : Bool)
    (alpha : K) (pos : Nat → Nat → Nat) (U S : Nat) (x : List K) : Option (List K) :=
  (List.range U).foldlM (fun y u => substRowChecked coef unitDiag alpha pos S u y) x

/-- The solve `dtrsmCore` with every access to `a` and `b` checked: the same
unknowns, order, coefficients and positions, and `none` for an access out of
range. -/
def dtrsmCoreChecked {K : Type} [Field K] (s : Side) (ul : Uplo) (tA : Transpose) (d : Diag)
    (m n : Nat) (alpha : K) (a : List K) (lda : Nat) (b : List K) (ldb : Nat) :
    Option (List K) :=
  let tr : Bool := decide (tA ≠ Transpose.NoTrans)
  let left : Bool := decide (s = Side.Left)
  let U : Nat := if left then m else n
  let S : Nat := if left then n else m
  let trEff : Bool := if left then tr else !tr
  let lowerEff : Bool := (decide (ul = Uplo.Lower)) != trEff
  let ord : Nat → Nat := fun u => if lowerEff then u else U - 1 - u
  let coef : Nat → Nat → Option K := fun u k => opEntryChecked a lda trEff (ord u) (ord k)
  let pos : Nat → Nat → Nat :=
    fun u t => if left then ord u * ldb + t else t * ldb + ord u
  forwardSubstChecked coef (decide (d = Diag.Unit)) alpha pos U S b

/-- Modelled from the spec: the primitive `Dtrsm` as above, with the accesses of
the solve checked as Go checks an index into a slice: an access out of range
inside the solve is a failure of the primitive. -/
def DtrsmChecked {K : Type} [Field K] : Solver K :=
  fun s ul tA d m n alpha a lda b ldb =>
    if dtrsmPre s ul m n a lda b ldb then
      match dtrsmCoreChecked s ul tA d m.toNat n.toNat alpha a lda.toNat b ldb.toNat with
      | some y => ⟨a, y, none⟩
      | none => ⟨a, b, some Failure.solver⟩
    else ⟨a, b, some Failure.solver⟩


/-! ## Validation -/

theorem checkMatrix_eq_none_iff {K : Type} (m n : Int) (a : List K) (lda : Int) :
    checkMatrix m n a lda = none ↔ max 1 n ≤ lda ∧ lda * (m - 1) + n ≤ (a.length : Int) := by
  unfold checkMatrix
  split_ifs with h1 h2
  · simp; intro h; omega
  · simp; intro _; omega
  · simp; constructor <;> omega

theorem checkMatrix_eq_dimension {K : Type} (m n : Int) (a : List K) (lda : Int)
    (h : lda < max 1 n) : checkMatrix m n a lda = some Failure.dimension := by
  unfold checkMatrix
  simp [h]

theorem checkMatrix_cases {K : Type} (m n : Int) (a : List K) (lda : Int) :
    checkMatrix m n a lda = none ∨ checkMatrix m n a lda = some Failure.dimension := by
  unfold checkMatrix
  split_ifs <;> simp

theorem Dpotrs_bad_stride {K : Type} [One K] (dtrsm : Solver K) (uplo : Uplo) (n nrhs : Int)
    (a : List K) (lda : Int) (b : List K) (ldb : Int)
    (hu : uplo = Uplo.Upper ∨ uplo = Uplo.Lower)
    (h : lda < max 1 n ∨ ldb < max 1 nrhs) :
    Dpotrs dtrsm uplo n nrhs a lda b ldb = ⟨a, b, some Failure.dimension⟩ := by
  have hm : ¬ (uplo ≠ Uplo.Upper ∧ uplo ≠ Uplo.Lower) := by
    rcases hu with h1 | h1 <;> simp [h1]
  unfold Dpotrs
  rw [if_neg hm]
  rcases checkMatrix_cases n n a lda with ha | ha
  · have hb : checkMatrix n nrhs b ldb = some Failure.dimension := by
      rcases h with h | h
      · rw [checkMatrix_eq_none_iff] at ha
        omega
      · exact checkMatrix_eq_dimension _ _ _ _ h
    simp only [ha, hb]
  · simp only [ha]

theorem Dpotrs_valid {K : Type} [One K] (dtrsm : Solver K) (uplo : Uplo) (n nrhs : Int)
    (a : List K) (lda : Int) (b : List K) (ldb : Int)
    (hu : uplo = Uplo.Upper ∨ uplo = Uplo.Lower)
    (hlda : max 1 n ≤ lda) (ha : lda * (n - 1) + n ≤ (a.length : Int))
    (hldb : max 1 nrhs ≤ ldb) (hb : ldb * (n - 1) + nrhs ≤ (b.length : Int)) :
    Dpotrs dtrsm uplo n nrhs a lda b ldb =
      if n = 0 ∨ nrhs = 0 then ⟨a, b, none⟩
      else if uplo = Uplo.Upper then
        let r := dtrsm Side.Left Uplo.Upper Transpose.Trans Diag.NonUnit n nrhs 1 a lda b ldb
        match r.err with
        | some _ => r
        | none =>
          dtrsm Side.Left Uplo.Upper Transpose.NoTrans Diag.NonUnit n nrhs 1 r.a lda r.b ldb
      else
        let r := dtrsm Side.Left Uplo.Lower Transpose.NoTrans Diag.NonUnit n nrhs 1 a lda b ldb
        match r.err with
        | some _ => r
        | none =>
          dtrsm Side.Left Uplo.Lower Transpose.Trans Diag.NonUnit n nrhs 1 r.a lda r.b ldb := by
  have hm : ¬ (uplo ≠ Uplo.Upper ∧ uplo ≠ Uplo.Lower) := by
    rcases hu with h1 | h1 <;> simp [h1]
  have h1 : checkMatrix n n a lda = none := (checkMatrix_eq_none_iff _ _ _ _).2 ⟨hlda, ha⟩
  have h2 : checkMatrix n nrhs b ldb = none := (checkMatrix_eq_none_iff _ _ _ _).2 ⟨hldb, hb⟩
  unfold Dpotrs
  rw [if_neg hm]
  simp only [h1, h2]

/-! ## Buffers -/

theorem rd_set {K : Type} [Zero K] (x : List K) (p q : Nat) (v : K) :
    rd (x.set p v) q = if q = p ∧ p < x.length then v else rd x q := by
  unfold rd
  by_cases hqp : q = p
  · subst hqp
    by_cases hl : q < x.length
    · simp [hl, List.getD_eq_getElem?_getD, List.getElem?_set]
    · have h2 : x.length ≤ q := by omega
      simp [hl, List.getD_eq_getElem?_getD, List.getElem?_set, List.getElem?_eq_none h2]
  · have : ¬ p = q := fun h => hqp h.symm
    simp [hqp, this, List.getD_eq_getElem?_getD, List.getElem?_set]

theorem foldl_sub_eq_sum {K : Type} [Field K] (f : Nat → K) (init : K) (u : Nat) :
    (List.range u).foldl (fun t k => t - f k) init = init - ∑ k in Finset.range u, f k := by
  induction u with
  | zero => simp
  | succ u ih =>
    rw [List.range_succ, List.foldl_append, ih, Finset.sum_range_succ]
    simp only [List.foldl_cons, List.foldl_nil]
    ring

theorem substEntry_eq {K : Type} [Field K] (coef : Nat → Nat → K) (unitDiag : Bool) (alpha : K)
    (pos : Nat → Nat → Nat) (u s : Nat) (x : List K) :
    substEntry coef unitDiag alpha pos u s x =
      x.set (pos u s)
        (substVal coef unitDiag alpha (rd x (pos u s)) (fun k => rd x (pos k s)) u) := by
  unfold substEntry substVal
  simp only [foldl_sub_eq_sum]

theorem substVal_congr {K : Type} [Field K] (coef : Nat → Nat → K) (unitDiag : Bool) (alpha : K)
    (rhs : K) (r r₂ : Nat → K) (u : Nat) (h : ∀ k < u, r k = r₂ k) :
    substVal coef unitDiag alpha rhs r u = substVal coef unitDiag alpha rhs r₂ u := by
  unfold substVal
  have : ∑ k in Finset.range u, coef u k * r k = ∑ k in Finset.range u, coef u k * r₂ k := by
    apply Finset.sum_congr rfl
    intro k hk
    rw [h k (Finset.mem_range.1 hk)]
  rw [this]

theorem substRow_succ {K : Type} [Field K] (coef : Nat → Nat → K) (unitDiag : Bool) (alpha : K)
    (pos : Nat → Nat → Nat) (S u : Nat) (x : List K) :
    substRow coef unitDiag alpha pos (S + 1) u x =
      substEntry coef unitDiag alpha pos u S (substRow coef unitDiag alpha pos S u x) := by
  unfold substRow
  rw [List.range_succ, List.foldl_append]
  rfl

theorem forwardSubst_succ {K : Type} [Field K] (coef : Nat → Nat → K) (unitDiag : Bool)
    (alpha : K) (pos : Nat → Nat → Nat) (U S : Nat) (x : List K) :
    forwardSubst coef unitDiag alpha pos (U + 1) S x =
      substRow coef unitDiag alpha pos S U (forwardSubst coef unitDiag alpha pos U S x) := by
  unfold forwardSubst
  rw [List.range_succ, List.foldl_append]
  rfl

theorem substRow_spec {K : Type} [Field K] (coef : Nat → Nat → K) (unitDiag : Bool) (alpha : K)
    (pos : Nat → Nat → Nat) (u : Nat) (x : List K) (S : Nat)
    (hin : ∀ s < S, pos u s < x.length)
    (hinj : ∀ s < S, ∀ t < S, pos u s = pos u t → s = t)
    (hlow : ∀ k < u, ∀ s < S, ∀ t < S, pos k s ≠ pos u t) :
    (substRow coef unitDiag alpha pos S u x).length = x.length ∧
    (∀ s < S, rd (substRow coef unitDiag alpha pos S u x) (pos u s) =
      substVal coef unitDiag alpha (rd x (pos u s)) (fun k => rd x (pos k s)) u) ∧
    (∀ q, (∀ s < S, q ≠ pos u s) → rd (substRow coef unitDiag alpha pos S u x) q = rd x q) := by
  induction S with
  | zero =>
    refine ⟨rfl, ?_, ?_⟩
    · intro s hs; omega
    · intro q _; rfl
  | succ S ih =>
    obtain ⟨ihlen, ihrow, ihout⟩ := ih (fun s hs => hin s (by omega))
      (fun s hs t ht => hinj s (by omega) t (by omega))
      (fun k hk s hs t ht => hlow k hk s (by omega) t (by omega))
    rw [substRow_succ, substEntry_eq]
    have hval : substVal coef unitDiag alpha
          (rd (substRow coef unitDiag alpha pos S u x) (pos u S))
          (fun k => rd (substRow coef unitDiag alpha pos S u x) (pos k S)) u =
        substVal coef unitDiag alpha (rd x (pos u S)) (fun k => rd x (pos k S)) u := by
      rw [ihout (pos u S) (fun s hs h => by have := hinj S (by omega) s (by omega) h; omega)]
      apply substVal_congr
      intro k hk
      exact ihout (pos k S) (fun s hs => hlow k hk S (by omega) s (by omega))
    rw [hval]
    refine ⟨by rw [List.length_set, ihlen], ?_, ?_⟩
    · intro s hs
      rw [rd_set, ihlen]
      by_cases hsS : s = S
      · subst hsS
        simp [hin s (by omega)]
      · have hne : pos u s ≠ pos u S := fun h => hsS (hinj s hs S (by omega) h)
        simp only [hne, false_and, if_false]
        exact ihrow s (by omega)
    · intro q hq
      rw [rd_set]
      have hne : q ≠ pos u S := hq S (by omega)
      simp only [hne, false_and, if_false]
      exact ihout q (fun s hs => hq s (by omega))

theorem forwardSubst_spec {K : Type} [Field K] (coef : Nat → Nat → K) (unitDiag : Bool)
    (alpha : K) (pos : Nat → Nat → Nat) (S : Nat) (x : List K) (U : Nat)
    (hin : ∀ u < U, ∀ s < S, pos u s < x.length)
    (hinj : ∀ u < U, ∀ s < S, ∀ v < U, ∀ t < S, pos u s = pos v t → u = v ∧ s = t) :
    (forwardSubst coef unitDiag alpha pos U S x).length = x.length ∧
    (∀ u < U, ∀ s < S, rd (forwardSubst coef unitDiag alpha pos U S x) (pos u s) =
      substVal coef unitDiag alpha (rd x (pos u s))
        (fun k => rd (forwardSubst coef unitDiag alpha pos U S x) (pos k s)) u) ∧
    (∀ q, (∀ u < U, ∀ s < S, q ≠ pos u s) →
      rd (forwardSubst coef unitDiag alpha pos U S x) q = rd x q) := by
  induction U with
  | zero =>
    refine ⟨rfl, ?_, ?_⟩
    · intro u hu; omega
    · intro q _; rfl
  | succ U ih =>
    obtain ⟨ihlen, ihrow, ihout⟩ := ih (fun u hu => hin u (by omega))
      (fun u hu s hs v hv t ht => hinj u (by omega) s hs v (by omega) t ht)
    rw [forwardSubst_succ]
    obtain ⟨rlen, rrow, rout⟩ := substRow_spec coef unitDiag alpha pos U
      (forwardSubst coef unitDiag alpha pos U S x) S
      (fun s hs => by rw [ihlen]; exact hin U (by omega) s hs)
      (fun s hs t ht h => (hinj U (by omega) s hs U (by omega) t ht h).2)
      (fun k hk s hs t ht h => by
        have := (hinj k (by omega) s hs U (by omega) t ht h).1
        omega)
    have keep : ∀ k < U, ∀ s < S,
        rd (substRow coef unitDiag alpha pos S U (forwardSubst coef unitDiag alpha pos U S x))
          (pos k s) = rd (forwardSubst coef unitDiag alpha pos U S x) (pos k s) := by
      intro k hk s hs
      apply rout
      intro t ht h
      have := (hinj k (by omega) s hs U (by omega) t ht h).1
      omega
    refine ⟨by rw [rlen, ihlen], ?_, ?_⟩
    · intro u hu s hs
      by_cases huU : u = U
      · subst huU
        rw [rrow s hs]
        rw [ihout (pos u s) (fun v hv t ht h => by
          have := (hinj u (by omega) s hs v (by omega) t ht h).1
          omega)]
        apply substVal_congr
        intro k hk
        exact (keep k hk s hs).symm
      · have huU2 : u < U := by omega
        rw [keep u huU2 s hs, ihrow u huU2 s hs]
        apply substVal_congr
        intro k hk
        exact (keep k (by omega) s hs).symm
    · intro q hq
      rw [rout q (fun s hs => hq U (by omega) s hs)]
      exact ihout q (fun u hu s hs => hq u (by omega) s hs)

/-! ## Row-major positions -/

theorem pos_inj (ldb n : Nat) (hn : n ≤ ldb) (i s j t : Nat) (hs : s < n) (ht : t < n)
    (h : i * ldb + s = j * ldb + t) : i = j ∧ s = t := by
  have key : i = j := by
    rcases Nat.lt_trichotomy i j with hij | hij | hij
    · have : (i + 1) * ldb ≤ j * ldb := Nat.mul_le_mul_right _ hij
      rw [Nat.add_mul] at this
      omega
    · exact hij
    · have : (j + 1) * ldb ≤ i * ldb := Nat.mul_le_mul_right _ hij
      rw [Nat.add_mul] at this
      omega
  subst key
  exact ⟨rfl, by omega⟩

theorem pos_lt (ldb m n len : Nat) (hb : ldb * (m - 1) + n ≤ len)
    (i s : Nat) (hi : i < m) (hs : s < n) : i * ldb + s < len := by
  have h1 : i * ldb ≤ (m - 1) * ldb := Nat.mul_le_mul_right _ (by omega)
  rw [Nat.mul_comm (m - 1) ldb] at h1
  omega

theorem sum_range_ite_le {K : Type} [Field K] (f : Nat → K) (m i : Nat) (hi : i < m) :
    ∑ k in Finset.range m, (if k ≤ i then f k else 0) = ∑ k in Finset.range (i + 1), f k := by
  have hsub : Finset.range (i + 1) ⊆ Finset.range m := Finset.range_subset.2 (by omega)
  rw [← Finset.sum_subset hsub]
  · apply Finset.sum_congr rfl
    intro k hk
    have : k ≤ i := by have := Finset.mem_range.1 hk; omega
    simp [this]
  · intro k _ hk
    have : ¬ k ≤ i := by
      intro h
      exact hk (Finset.mem_range.2 (by omega))
    simp [this]

/-! ## Substitution solves the triangular systems -/

theorem forwardSubst_solves {K : Type} [Field K] (coef : Nat → Nat → K) (alpha : K)
    (pos : Nat → Nat → Nat) (S : Nat) (x : List K) (U : Nat)
    (hin : ∀ u < U, ∀ s < S, pos u s < x.length)
    (hinj : ∀ u < U, ∀ s < S, ∀ v < U, ∀ t < S, pos u s = pos v t → u = v ∧ s = t)
    (hd : ∀ u < U, coef u u ≠ 0) (u s : Nat) (hu : u < U) (hs : s < S) :
    ∑ k in Finset.range (u + 1), coef u k * rd (forwardSubst coef false alpha pos U S x) (pos k s) =
      alpha * rd x (pos u s) := by
  obtain ⟨_, hrow, _⟩ := forwardSubst_spec coef false alpha pos S x U hin hinj
  rw [Finset.sum_range_succ, hrow u hu s hs]
  unfold substVal
  have := hd u hu
  simp only [Bool.false_eq_true, if_false]
  field_simp

theorem forward_rows_solve {K : Type} [Field K] (c : Nat → Nat → K) (m n ldb : Nat) (b : List K)
    (hn : n ≤ ldb) (hb : ldb * (m - 1) + n ≤ b.length) (hd : ∀ i < m, c i i ≠ 0)
    (i s : Nat) (hi : i < m) (hs : s < n) :
    ∑ k in Finset.range m, (if k ≤ i then c i k else 0) *
        rd (forwardSubst c false 1 (fun u t => u * ldb + t) m n b) (k * ldb + s) =
      rd b (i * ldb + s) := by
  have h := forwardSubst_solves c 1 (fun u t => u * ldb + t) n b m
    (fun u hu t ht => pos_lt ldb m n b.length hb u t hu ht)
    (fun u _ t ht v _ w hw h => pos_inj ldb n hn u t v w ht hw h) hd i s hi hs
  rw [one_mul] at h
  rw [← h, ← sum_range_ite_le _ m i hi]
  apply Finset.sum_congr rfl
  intro k _
  split_ifs <;> simp

theorem backward_rows_solve {K : Type} [Field K] (c : Nat → Nat → K) (m n ldb : Nat)
    (b : List K) (hn : n ≤ ldb) (hb : ldb * (m - 1) + n ≤ b.length) (hd : ∀ i < m, c i i ≠ 0)
    (i s : Nat) (hi : i < m) (hs : s < n) :
    ∑ k in Finset.range m, (if i ≤ k then c i k else 0) *
        rd (forwardSubst (fun u k => c (m - 1 - u) (m - 1 - k)) false 1
          (fun u t => (m - 1 - u) * ldb + t) m n b) (k * ldb + s) =
      rd b (i * ldb + s) := by
  have h := forwardSubst_solves (fun u k => c (m - 1 - u) (m - 1 - k)) 1
    (fun u t => (m - 1 - u) * ldb + t) n b m
    (fun u hu t ht => pos_lt ldb m n b.length hb (m - 1 - u) t (by omega) ht)
    (fun u hu t ht v hv w hw h => by
      have := pos_inj ldb n hn (m - 1 - u) t (m - 1 - v) w ht hw h
      omega)
    (fun u hu => hd (m - 1 - u) (by omega)) (m - 1 - i) s (by omega) hs
  rw [one_mul] at h
  have hi2 : m - 1 - (m - 1 - i) = i := by omega
  simp only [hi2] at h
  rw [← h, ← sum_range_ite_le _ m (m - 1 - i) (by omega)]
  rw [← Finset.sum_range_reflect]
  apply Finset.sum_congr rfl
  intro k hk
  have hk2 := Finset.mem_range.1 hk
  by_cases hik : k ≤ m - 1 - i
  · have : i ≤ m - 1 - k := by omega
    simp [hik, this]
  · have : ¬ i ≤ m - 1 - k := by omega
    simp [hik, this]

/-! ## The solve keeps the length of the buffer -/

theorem substEntry_length {K : Type} [Field K] (coef : Nat → Nat → K) (unitDiag : Bool)
    (alpha : K) (pos : Nat → Nat → Nat) (u s : Nat) (x : List K) :
    (substEntry coef unitDiag alpha pos u s x).length = x.length := by
  unfold substEntry
  simp

theorem substRow_length {K : Type} [Field K] (coef : Nat → Nat → K) (unitDiag : Bool)
    (alpha : K) (pos : Nat → Nat → Nat) (S u : Nat) (x : List K) :
    (substRow coef unitDiag alpha pos S u x).length = x.length := by
  induction S with
  | zero => rfl
  | succ S ih => rw [substRow_succ, substEntry_length, ih]

theorem forwardSubst_length {K : Type} [Field K] (coef : Nat → Nat → K) (unitDiag : Bool)
    (alpha : K) (pos : Nat → Nat → Nat) (U S : Nat) (x : List K) :
    (forwardSubst coef unitDiag alpha pos U S x).length = x.length := by
  induction U with
  | zero => rfl
  | succ U ih => rw [forwardSubst_succ, substRow_length, ih]

theorem dtrsmCore_length {K : Type} [Field K] (s : Side) (ul : Uplo) (tA : Transpose) (d : Diag)
    (m n : Nat) (alpha : K) (a : List K) (lda : Nat) (b : List K) (ldb : Nat) :
    (dtrsmCore s ul tA d m n alpha a lda b ldb).length = b.length := by
  unfold dtrsmCore
  exact forwardSubst_length _ _ _ _ _ _ _

/-! ## The four solves from the left -/

theorem dtrsmCore_upper_trans {K : Type} [Field K] (m n : Nat) (alpha : K) (a : List K)
    (lda : Nat) (b : List K) (ldb : Nat) :
    dtrsmCore Side.Left Uplo.Upper Transpose.Trans Diag.NonUnit m n alpha a lda b ldb =
      forwardSubst (fun u k => rd a (k * lda + u)) false alpha (fun u t => u * ldb + t) m n b :=
  rfl

theorem dtrsmCore_lower_notrans {K : Type} [Field K] (m n : Nat) (alpha : K) (a : List K)
    (lda : Nat) (b : List K) (ldb : Nat) :
    dtrsmCore Side.Left Uplo.Lower Transpose.NoTrans Diag.NonUnit m n alpha a lda b ldb =
      forwardSubst (fun u k => rd a (u * lda + k)) false alpha (fun u t => u * ldb + t) m n b :=
  rfl

theorem dtrsmCore_upper_notrans {K : Type} [Field K] (m n : Nat) (alpha : K) (a : List K)
    (lda : Nat) (b : List K) (ldb : Nat) :
    dtrsmCore Side.Left Uplo.Upper Transpose.NoTrans Diag.NonUnit m n alpha a lda b ldb =
      forwardSubst (fun u k => rd a ((m - 1 - u) * lda + (m - 1 - k))) false alpha
        (fun u t => (m - 1 - u) * ldb + t) m n b :=
  rfl

theorem dtrsmCore_lower_trans {K : Type} [Field K] (m n : Nat) (alpha : K) (a : List K)
    (lda : Nat) (b : List K) (ldb : Nat) :
    dtrsmCore Side.Left Uplo.Lower Transpose.Trans Diag.NonUnit m n alpha a lda b ldb =
      forwardSubst (fun u k => rd a ((m - 1 - k) * lda + (m - 1 - u))) false alpha
        (fun u t => (m - 1 - u) * ldb + t) m n b :=
  rfl

theorem solve_upper_trans {K : Type} [Field K] (m n : Nat) (a : List K) (lda : Nat)
    (b : List K) (ldb : Nat) (hn : n ≤ ldb) (hb : ldb * (m - 1) + n ≤ b.length)
    (hd : ∀ i < m, rd a (i * lda + i) ≠ 0) :
    (upperTriangle a lda m).transpose *
        rhsMatrix (dtrsmCore Side.Left Uplo.Upper Transpose.Trans Diag.NonUnit m n 1 a lda b ldb)
          ldb m n = rhsMatrix b ldb m n := by
  ext i j
  rw [Matrix.mul_apply, dtrsmCore_upper_trans]
  simp only [upperTriangle, rhsMatrix, Matrix.transpose_apply, Matrix.of_apply]
  rw [Fin.sum_univ_eq_sum_range (fun k => (if k ≤ i.val then rd a (k * lda + i.val) else 0) *
    rd (forwardSubst (fun u k => rd a (k * lda + u)) false 1 (fun u t => u * ldb + t) m n b)
      (k * ldb + j.val)) m]
  exact forward_rows_solve (fun u k => rd a (k * lda + u)) m n ldb b hn hb hd i.val j.val
    i.isLt j.isLt

theorem solve_lower_notrans {K : Type} [Field K] (m n : Nat) (a : List K) (lda : Nat)
    (b : List K) (ldb : Nat) (hn : n ≤ ldb) (hb : ldb * (m - 1) + n ≤ b.length)
    (hd : ∀ i < m, rd a (i * lda + i) ≠ 0) :
    lowerTriangle a lda m *
        rhsMatrix (dtrsmCore Side.Left Uplo.Lower Transpose.NoTrans Diag.NonUnit m n 1 a lda b
          ldb) ldb m n = rhsMatrix b ldb m n := by
  ext i j
  rw [Matrix.mul_apply, dtrsmCore_lower_notrans]
  simp only [lowerTriangle, rhsMatrix, Matrix.of_apply]
  rw [Fin.sum_univ_eq_sum_range (fun k => (if k ≤ i.val then rd a (i.val * lda + k) else 0) *
    rd (forwardSubst (fun u k => rd a (u * lda + k)) false 1 (fun u t => u * ldb + t) m n b)
      (k * ldb + j.val)) m]
  exact forward_rows_solve (fun u k => rd a (u * lda + k)) m n ldb b hn hb hd i.val j.val
    i.isLt j.isLt

theorem solve_upper_notrans {K : Type} [Field K] (m n : Nat) (a : List K) (lda : Nat)
    (b : List K) (ldb : Nat) (hn : n ≤ ldb) (hb : ldb * (m - 1) + n ≤ b.length)
    (hd : ∀ i < m, rd a (i * lda + i) ≠ 0) :
    upperTriangle a lda m *
        rhsMatrix (dtrsmCore Side.Left Uplo.Upper Transpose.NoTrans Diag.NonUnit m n 1 a lda b
          ldb) ldb m n = rhsMatrix b ldb m n := by
  ext i j
  rw [Matrix.mul_apply, dtrsmCore_upper_notrans]
  simp only [upperTriangle, rhsMatrix, Matrix.of_apply]
  rw [Fin.sum_univ_eq_sum_range (fun k => (if i.val ≤ k then rd a (i.val * lda + k) else 0) *
    rd (forwardSubst (fun u k => rd a ((m - 1 - u) * lda + (m - 1 - k))) false 1
      (fun u t => (m - 1 - u) * ldb + t) m n b) (k * ldb + j.val)) m]
  exact backward_rows_solve (fun u k => rd a (u * lda + k)) m n ldb b hn hb hd i.val j.val
    i.isLt j.isLt

theorem solve_lower_trans {K : Type} [Field K] (m n : Nat) (a : List K) (lda : Nat)
    (b : List K) (ldb : Nat) (hn : n ≤ ldb) (hb : ldb * (m - 1) + n ≤ b.length)
    (hd : ∀ i < m, rd a (i * lda + i) ≠ 0) :
    (lowerTriangle a lda m).transpose *
        rhsMatrix (dtrsmCore Side.Left Uplo.Lower Transpose.Trans Diag.NonUnit m n 1 a lda b
          ldb) ldb m n = rhsMatrix b ldb m n := by
  ext i j
  rw [Matrix.mul_apply, dtrsmCore_lower_trans]
  simp only [lowerTriangle, rhsMatrix, Matrix.transpose_apply, Matrix.of_apply]
  rw [Fin.sum_univ_eq_sum_range (fun k => (if i.val ≤ k then rd a (k * lda + i.val) else 0) *
    rd (forwardSubst (fun u k => rd a ((m - 1 - k) * lda + (m - 1 - u))) false 1
      (fun u t => (m - 1 - u) * ldb + t) m n b) (k * ldb + j.val)) m]
  exact backward_rows_solve (fun u k => rd a (k * lda + u)) m n ldb b hn hb hd i.val j.val
    i.isLt j.isLt

/-! ## The reference solve on valid shapes -/

theorem dtrsmPre_of_valid {K : Type} (ul : Uplo) (m n lda ldb : Nat) (a b : List K)
    (hul : ul = Uplo.Upper ∨ ul = Uplo.Lower) (hm : 1 ≤ m) (hn : 1 ≤ n)
    (hlda : m ≤ lda) (ha : lda * (m - 1) + m ≤ a.length)
    (hldb : n ≤ ldb) (hb : ldb * (m - 1) + n ≤ b.length) :
    dtrsmPre Side.Left ul (m : Int) (n : Int) a (lda : Int) b (ldb : Int) := by
  have ha2 : ((lda * (m - 1) + m : Nat) : Int) ≤ (a.length : Int) := by exact_mod_cast ha
  have hb2 : ((ldb * (m - 1) + n : Nat) : Int) ≤ (b.length : Int) := by exact_mod_cast hb
  rw [Nat.cast_add, Nat.cast_mul, Nat.cast_sub hm] at ha2 hb2
  unfold dtrsmPre
  simp only [if_true]
  refine ⟨hul, by omega, by omega, by omega, by omega, ?_, ?_⟩
  · simpa using ha2
  · simpa using hb2

theorem Dtrsm_left_valid {K : Type} [Field K] (ul : Uplo) (tA : Transpose) (d : Diag)
    (m n lda ldb : Nat) (alpha : K) (a b : List K)
    (hul : ul = Uplo.Upper ∨ ul = Uplo.Lower) (hm : 1 ≤ m) (hn : 1 ≤ n)
    (hlda : m ≤ lda) (ha : lda * (m - 1) + m ≤ a.length)
    (hldb : n ≤ ldb) (hb : ldb * (m - 1) + n ≤ b.length) :
    Dtrsm Side.Left ul tA d (m : Int) (n : Int) alpha a (lda : Int) b (ldb : Int) =
      ⟨a, dtrsmCore Side.Left ul tA d m n alpha a lda b ldb, none⟩ := by
  unfold Dtrsm
  rw [if_pos (dtrsmPre_of_valid ul m n lda ldb a b hul hm hn hlda ha hldb hb)]
  simp only [Int.toNat_ofNat]

/-! ## Dpotrs with the reference solve -/

theorem Dpotrs_upper_eq {K : Type} [Field K] (n nrhs lda ldb : Nat) (a b : List K)
    (hn : 1 ≤ n) (hnrhs : 1 ≤ nrhs) (hlda : n ≤ lda) (ha : lda * (n - 1) + n ≤ a.length)
    (hldb : nrhs ≤ ldb) (hb : ldb * (n - 1) + nrhs ≤ b.length) :
    Dpotrs Dtrsm Uplo.Upper (n : Int) (nrhs : Int) a (lda : Int) b (ldb : Int) =
      ⟨a, dtrsmCore Side.Left Uplo.Upper Transpose.NoTrans Diag.NonUnit n nrhs 1 a lda
        (dtrsmCore Side.Left Uplo.Upper Transpose.Trans Diag.NonUnit n nrhs 1 a lda b ldb) ldb,
        none⟩ := by
  have ha2 : ((lda * (n - 1) + n : Nat) : Int) ≤ (a.length : Int) := by exact_mod_cast ha
  have hb2 : ((ldb * (n - 1) + nrhs : Nat) : Int) ≤ (b.length : Int) := by exact_mod_cast hb
  rw [Nat.cast_add, Nat.cast_mul, Nat.cast_sub hn] at ha2 hb2
  rw [Dpotrs_valid Dtrsm Uplo.Upper n nrhs a lda b ldb (Or.inl rfl) (by omega)
    (by simpa using ha2) (by omega) (by simpa using hb2)]
  have h0 : ¬ ((n : Int) = 0 ∨ (nrhs : Int) = 0) := by omega
  rw [if_neg h0, if_pos rfl]
  simp only [Dtrsm_left_valid Uplo.Upper Transpose.Trans Diag.NonUnit n nrhs lda ldb 1 a b
    (Or.inl rfl) hn hnrhs hlda ha hldb hb]
  exact Dtrsm_left_valid Uplo.Upper Transpose.NoTrans Diag.NonUnit n nrhs lda ldb 1 a _
    (Or.inl rfl) hn hnrhs hlda ha hldb (by rw [dtrsmCore_length]; exact hb)

theorem Dpotrs_lower_eq {K : Type} [Field K] (n nrhs lda ldb : Nat) (a b : List K)
    (hn : 1 ≤ n) (hnrhs : 1 ≤ nrhs) (hlda : n ≤ lda) (ha : lda * (n - 1) + n ≤ a.length)
    (hldb : nrhs ≤ ldb) (hb : ldb * (n - 1) + nrhs ≤ b.length) :
    Dpotrs Dtrsm Uplo.Lower (n : Int) (nrhs : Int) a (lda : Int) b (ldb : Int) =
      ⟨a, dtrsmCore Side.Left Uplo.Lower Transpose.Trans Diag.NonUnit n nrhs 1 a lda
        (dtrsmCore Side.Left Uplo.Lower Transpose.NoTrans Diag.NonUnit n nrhs 1 a lda b ldb) ldb,
        none⟩ := by
  have ha2 : ((lda * (n - 1) + n : Nat) : Int) ≤ (a.length : Int) := by exact_mod_cast ha
  have hb2 : ((ldb * (n - 1) + nrhs : Nat) : Int) ≤ (b.length : Int) := by exact_mod_cast hb
  rw [Nat.cast_add, Nat.cast_mul, Nat.cast_sub hn] at ha2 hb2
  rw [Dpotrs_valid Dtrsm Uplo.Lower n nrhs a lda b ldb (Or.inr rfl) (by omega)
    (by simpa using ha2) (by omega) (by simpa using hb2)]
  have h0 : ¬ ((n : Int) = 0 ∨ (nrhs : Int) = 0) := by omega
  have h1 : ¬ (Uplo.Lower = Uplo.Upper) := by decide
  rw [if_neg h0, if_neg h1]
  simp only [Dtrsm_left_valid Uplo.Lower Transpose.NoTrans Diag.NonUnit n nrhs lda ldb 1 a b
    (Or.inr rfl) hn hnrhs hlda ha hldb hb]
  exact Dtrsm_left_valid Uplo.Lower Transpose.Trans Diag.NonUnit n nrhs lda ldb 1 a _
    (Or.inr rfl) hn hnrhs hlda ha hldb (by rw [dtrsmCore_length]; exact hb)

theorem upper_product_solved {K : Type} [Field K] (n nrhs lda ldb : Nat) (a b : List K)
    (hldb : nrhs ≤ ldb) (hb : ldb * (n - 1) + nrhs ≤ b.length)
    (hd : ∀ i < n, rd a (i * lda + i) ≠ 0) :
    ((upperTriangle a lda n).transpose * upperTriangle a lda n) *
      rhsMatrix (dtrsmCore Side.Left Uplo.Upper Transpose.NoTrans Diag.NonUnit n nrhs 1 a lda
        (dtrsmCore Side.Left Uplo.Upper Transpose.Trans Diag.NonUnit n nrhs 1 a lda b ldb) ldb)
        ldb n nrhs = rhsMatrix b ldb n nrhs := by
  rw [Matrix.mul_assoc, solve_upper_notrans n nrhs a lda _ ldb hldb
    (by rw [dtrsmCore_length]; exact hb) hd]
  exact solve_upper_trans n nrhs a lda b ldb hldb hb hd

theorem lower_product_solved {K : Type} [Field K] (n nrhs lda ldb : Nat) (a b : List K)
    (hldb : nrhs ≤ ldb) (hb : ldb * (n - 1) + nrhs ≤ b.length)
    (hd : ∀ i < n, rd a (i * lda + i) ≠ 0) :
    (lowerTriangle a lda n * (lowerTriangle a lda n).transpose) *
      rhsMatrix (dtrsmCore Side.Left Uplo.Lower Transpose.Trans Diag.NonUnit n nrhs 1 a lda
        (dtrsmCore Side.Left Uplo.Lower Transpose.NoTrans Diag.NonUnit n nrhs 1 a lda b ldb) ldb)
        ldb n nrhs = rhsMatrix b ldb n nrhs := by
  rw [Matrix.mul_assoc, solve_lower_trans n nrhs a lda _ ldb hldb
    (by rw [dtrsmCore_length]; exact hb) hd]
  exact solve_lower_notrans n nrhs a lda b ldb hldb hb hd

/-- C1. Upper mode: on valid shapes with `n, nrhs ≥ 1` and a factor whose upper
triangle `U` has a nonzero diagonal, `Dpotrs` with the exact reference solve
returns normally and leaves in `b` a matrix `X` with `(Uᵀ * U) * X = B`. -/
theorem C1_upper_mode_solves {K : Type} [Field K] (n nrhs lda ldb : Nat) (a b : List K)
    (hn : 1 ≤ n) (hnrhs : 1 ≤ nrhs) (hlda : n ≤ lda) (ha : lda * (n - 1) + n ≤ a.length)
    (hldb : nrhs ≤ ldb) (hb : ldb * (n - 1) + nrhs ≤ b.length)
    (hd : ∀ i < n, rd a (i * lda + i) ≠ 0) :
    (Dpotrs Dtrsm Uplo.Upper (n : Int) (nrhs : Int) a (lda : Int) b (ldb : Int)).err = none ∧
    ((upperTriangle a lda n).transpose * upperTriangle a lda n) *
      rhsMatrix (Dpotrs Dtrsm Uplo.Upper (n : Int) (nrhs : Int) a (lda : Int) b (ldb : Int)).b
        ldb n nrhs = rhsMatrix b ldb n nrhs := by
  rw [Dpotrs_upper_eq n nrhs lda ldb a b hn hnrhs hlda ha hldb hb]
  exact ⟨rfl, upper_product_solved n nrhs lda ldb a b hldb hb hd⟩

/-- C2. Lower mode: on valid shapes with `n, nrhs ≥ 1` and a factor whose lower
triangle `L` has a nonzero diagonal, `Dpotrs` with the exact reference solve
returns normally and leaves in `b` a matrix `X` with `(L * Lᵀ) * X = B`. -/
theorem C2_lower_mode_solves {K : Type} [Field K] (n nrhs lda ldb : Nat) (a b : List K)
    (hn : 1 ≤ n) (hnrhs : 1 ≤ nrhs) (hlda : n ≤ lda) (ha : lda * (n - 1) + n ≤ a.length)
    (hldb : nrhs ≤ ldb) (hb : ldb * (n - 1) + nrhs ≤ b.length)
    (hd : ∀ i < n, rd a (i * lda + i) ≠ 0) :
    (Dpotrs Dtrsm Uplo.Lower (n : Int) (nrhs : Int) a (lda : Int) b (ldb : Int)).err = none ∧
    (lowerTriangle a lda n * (lowerTriangle a lda n).transpose) *
      rhsMatrix (Dpotrs Dtrsm Uplo.Lower (n : Int) (nrhs : Int) a (lda : Int) b (ldb : Int)).b
        ldb n nrhs = rhsMatrix b ldb n nrhs := by
  rw [Dpotrs_lower_eq n nrhs lda ldb a b hn hnrhs hlda ha hldb hb]
  exact ⟨rfl, lower_product_solved n nrhs lda ldb a b hldb hb hd⟩

theorem C1_upper_mode_solves_witness :
    (Dpotrs (K := ℚ) Dtrsm Uplo.Upper ((2 : Nat) : Int) ((1 : Nat) : Int) [2, 1, 0, 3]
      ((2 : Nat) : Int) [4, 12] ((1 : Nat) : Int)).err = none ∧
    ((upperTriangle ([2, 1, 0, 3] : List ℚ) 2 2).transpose * upperTriangle [2, 1, 0, 3] 2 2) *
      rhsMatrix (Dpotrs (K := ℚ) Dtrsm Uplo.Upper ((2 : Nat) : Int) ((1 : Nat) : Int)
        [2, 1, 0, 3] ((2 : Nat) : Int) [4, 12] ((1 : Nat) : Int)).b 1 2 1 =
      rhsMatrix [4, 12] 1 2 1 :=
  C1_upper_mode_solves 2 1 2 1 [2, 1, 0, 3] [4, 12] (by decide) (by decide) (by decide)
    (by decide) (by decide) (by decide)
    (by intro i hi; interval_cases i <;> simp [rd])

theorem C2_lower_mode_solves_witness :
    (Dpotrs (K := ℚ) Dtrsm Uplo.Lower ((2 : Nat) : Int) ((2 : Nat) : Int) [2, 7, 7, 1, 3, 7]
      ((3 : Nat) : Int) [4, 1, 12, 5] ((2 : Nat) : Int)).err = none ∧
    (lowerTriangle ([2, 7, 7, 1, 3, 7] : List ℚ) 3 2 *
        (lowerTriangle [2, 7, 7, 1, 3, 7] 3 2).transpose) *
      rhsMatrix (Dpotrs (K := ℚ) Dtrsm Uplo.Lower ((2 : Nat) : Int) ((2 : Nat) : Int)
        [2, 7, 7, 1, 3, 7] ((3 : Nat) : Int) [4, 1, 12, 5] ((2 : Nat) : Int)).b 2 2 2 =
      rhsMatrix [4, 1, 12, 5] 2 2 2 :=
  C2_lower_mode_solves 2 2 3 2 [2, 7, 7, 1, 3, 7] [4, 1, 12, 5] (by decide) (by decide)
    (by decide) (by decide) (by decide) (by decide)
    (by intro i hi; interval_cases i <;> simp [rd])

/-- C3. A mode other than `Upper` and `Lower` is rejected first: whatever the
sizes, strides, buffers and injected solve, `Dpotrs` fails with `badUplo` (so
neither with a dimension failure nor normally) and both buffers are as on
entry. -/
theorem C3_invalid_mode_rejected {K : Type} [One K] (dtrsm : Solver K) (uplo : Uplo)
    (n nrhs : Int) (a : List K) (lda : Int) (b : List K) (ldb : Int)
    (hU : uplo ≠ Uplo.Upper) (hL : uplo ≠ Uplo.Lower) :
    (Dpotrs dtrsm uplo n nrhs a lda b ldb).err = some Failure.badUplo ∧
    (Dpotrs dtrsm uplo n nrhs a lda b ldb).err ≠ some Failure.dimension ∧
    (Dpotrs dtrsm uplo n nrhs a lda b ldb).err ≠ none ∧
    (Dpotrs dtrsm uplo n nrhs a lda b ldb).b = b := by
  have h : Dpotrs dtrsm uplo n nrhs a lda b ldb = ⟨a, b, some Failure.badUplo⟩ := by
    unfold Dpotrs
    rw [if_pos ⟨hU, hL⟩]
  rw [h]
  exact ⟨rfl, by simp, by simp, rfl⟩

theorem C3_invalid_mode_rejected_witness :
    (Dpotrs (K := ℚ) Dtrsm (Uplo.other 7) 0 3 [] (-1) [5] 2).err = some Failure.badUplo ∧
    (Dpotrs (K := ℚ) Dtrsm (Uplo.other 7) 0 3 [] (-1) [5] 2).err ≠ some Failure.dimension ∧
    (Dpotrs (K := ℚ) Dtrsm (Uplo.other 7) 0 3 [] (-1) [5] 2).err ≠ none ∧
    (Dpotrs (K := ℚ) Dtrsm (Uplo.other 7) 0 3 [] (-1) [5] 2).b = [5] :=
  C3_invalid_mode_rejected Dtrsm (Uplo.other 7) 0 3 [] (-1) [5] 2 (by decide) (by decide)

/-- C4. With a recognised mode and `n, nrhs ≥ 0`, a factor stride below `n` or a
right-hand-side stride below `nrhs` makes `Dpotrs` fail with a dimension
failure, both buffers being as on entry. -/
theorem C4_small_stride_rejected {K : Type} [One K] (dtrsm : Solver K) (uplo : Uplo)
    (n nrhs : Int) (a : List K) (lda : Int) (b : List K) (ldb : Int)
    (hu : uplo = Uplo.Upper ∨ uplo = Uplo.Lower) (hn : 0 ≤ n) (hnrhs : 0 ≤ nrhs)
    (h : lda < n ∨ ldb < nrhs) :
    (Dpotrs dtrsm uplo n nrhs a lda b ldb).err = some Failure.dimension ∧
    (Dpotrs dtrsm uplo n nrhs a lda b ldb).b = b := by
  rw [Dpotrs_bad_stride dtrsm uplo n nrhs a lda b ldb hu (by omega)]
  exact ⟨rfl, rfl⟩

theorem C4_small_stride_rejected_witness :
    (Dpotrs (K := ℚ) Dtrsm Uplo.Lower 2 1 [1, 0, 0, 1] 2 [3, 4] 0).err =
      some Failure.dimension ∧
    (Dpotrs (K := ℚ) Dtrsm Uplo.Lower 2 1 [1, 0, 0, 1] 2 [3, 4] 0).b = [3, 4] :=
  C4_small_stride_rejected Dtrsm Uplo.Lower 2 1 [1, 0, 0, 1] 2 [3, 4] 0 (Or.inr rfl)
    (by decide) (by decide) (Or.inr (by decide))

/-- C5, as stated, fails: with `n = 0` a call with an unrecognised mode ends in
`badUplo`, and a call with a right-hand-side stride below `nrhs` ends in a
dimension failure. -/
theorem C5_degenerate_sizes_counterexample :
    (Dpotrs (K := ℚ) Dtrsm (Uplo.other 0) 0 0 [] 1 [] 1).err = some Failure.badUplo ∧
    (Dpotrs (K := ℚ) Dtrsm Uplo.Upper 0 2 [] 1 [] 1).err = some Failure.dimension := by
  constructor
  · decide
  · decide

/-- C8. With a recognised mode, a factor stride below `max(1, n)` or a
right-hand-side stride below `max(1, nrhs)` makes `Dpotrs` fail with a
dimension failure; it does not return normally. -/
theorem C8_stride_at_least_one {K : Type} [One K] (dtrsm : Solver K) (uplo : Uplo)
    (n nrhs : Int) (a : List K) (lda : Int) (b : List K) (ldb : Int)
    (hu : uplo = Uplo.Upper ∨ uplo = Uplo.Lower)
    (h : lda < max 1 n ∨ ldb < max 1 nrhs) :
    (Dpotrs dtrsm uplo n nrhs a lda b ldb).err = some Failure.dimension ∧
    (Dpotrs dtrsm uplo n nrhs a lda b ldb).err ≠ none := by
  rw [Dpotrs_bad_stride dtrsm uplo n nrhs a lda b ldb hu h]
  exact ⟨rfl, by simp⟩

theorem C8_stride_at_least_one_witness :
    (Dpotrs (K := ℚ) Dtrsm Uplo.Upper 0 0 [] 0 [] 1).err = some Failure.dimension ∧
    (Dpotrs (K := ℚ) Dtrsm Uplo.Upper 0 0 [] 0 [] 1).err ≠ none :=
  C8_stride_at_least_one Dtrsm Uplo.Upper 0 0 [] 0 [] 1 (Or.inl rfl) (Or.inl (by decide))

/-- C10. Upper mode on valid shapes with `n, nrhs ≥ 1`, for any injected solve:
`Dpotrs` first calls the solve with `(Left, Upper, Trans, NonUnit, n, nrhs, 1)`
on the buffers given; if that call returns normally, the outcome of `Dpotrs`
is that of the solve with `(Left, Upper, NoTrans, NonUnit, n, nrhs, 1)` on the
buffers the first call left, and if it fails, its failure is the outcome. -/
theorem C10_upper_operand_selection {K : Type} [One K] (dtrsm : Solver K) (n nrhs : Int)
    (a : List K) (lda : Int) (b : List K) (ldb : Int)
    (hn : 1 ≤ n) (hnrhs : 1 ≤ nrhs)
    (hlda : n ≤ lda) (ha : lda * (n - 1) + n ≤ (a.length : Int))
    (hldb : nrhs ≤ ldb) (hb : ldb * (n - 1) + nrhs ≤ (b.length : Int)) :
    ((dtrsm Side.Left Uplo.Upper Transpose.Trans Diag.NonUnit n nrhs 1 a lda b ldb).err = none →
      Dpotrs dtrsm Uplo.Upper n nrhs a lda b ldb =
        dtrsm Side.Left Uplo.Upper Transpose.NoTrans Diag.NonUnit n nrhs 1
          (dtrsm Side.Left Uplo.Upper Transpose.Trans Diag.NonUnit n nrhs 1 a lda b ldb).a lda
          (dtrsm Side.Left Uplo.Upper Transpose.Trans Diag.NonUnit n nrhs 1 a lda b ldb).b ldb) ∧
    ((dtrsm Side.Left Uplo.Upper Transpose.Trans Diag.NonUnit n nrhs 1 a lda b ldb).err ≠ none →
      Dpotrs dtrsm Uplo.Upper n nrhs a lda b ldb =
        dtrsm Side.Left Uplo.Upper Transpose.Trans Diag.NonUnit n nrhs 1 a lda b ldb) := by
  rw [Dpotrs_valid dtrsm Uplo.Upper n nrhs a lda b ldb (Or.inl rfl) (by omega) ha (by omega) hb]
  have h0 : ¬ (n = 0 ∨ nrhs = 0) := by omega
  rw [if_neg h0, if_pos rfl]
  constructor
  · intro h
    simp only [h]
  · intro h
    cases he : (dtrsm Side.Left Uplo.Upper Transpose.Trans Diag.NonUnit n nrhs 1 a lda b ldb).err
      with
    | none => exact absurd he h
    | some e => simp only [he]


theorem C10_upper_operand_selection_witness :
    Dpotrs (K := ℚ) Dtrsm Uplo.Upper 2 1 [2, 1, 0, 3] 2 [4, 12] 1 =
      Dtrsm Side.Left Uplo.Upper Transpose.NoTrans Diag.NonUnit 2 1 1
        (Dtrsm Side.Left Uplo.Upper Transpose.Trans Diag.NonUnit 2 1 1 [2, 1, 0, 3] 2
          [4, 12] 1).a 2
        (Dtrsm Side.Left Uplo.Upper Transpose.Trans Diag.NonUnit 2 1 1 [2, 1, 0, 3] 2
          [4, 12] 1).b 1 :=
  (C10_upper_operand_selection Dtrsm 2 1 [2, 1, 0, 3] 2 [4, 12] 1 (by decide) (by decide)
    (by decide) (by decide) (by decide) (by decide)).1 (by decide)

/-! ## Uniqueness of the solution -/

theorem upperTriangle_det {K : Type} [Field K] (a : List K) (lda n : Nat)
    (hd : ∀ i < n, rd a (i * lda + i) ≠ 0) : (upperTriangle a lda n).det ≠ 0 := by
  have htri : (upperTriangle a lda n).BlockTriangular id := by
    intro i j hij
    have : ¬ i.val ≤ j.val := by
      simp only [id] at hij
      exact Nat.not_le.2 hij
    show (if i.val ≤ j.val then rd a (i.val * lda + j.val) else 0) = 0
    rw [if_neg this]
  rw [Matrix.det_of_upperTriangular htri, Finset.prod_ne_zero_iff]
  intro i _
  simpa [upperTriangle] using hd i.val i.isLt

theorem lowerTriangle_det {K : Type} [Field K] (a : List K) (lda n : Nat)
    (hd : ∀ i < n, rd a (i * lda + i) ≠ 0) : (lowerTriangle a lda n).det ≠ 0 := by
  have htri : (lowerTriangle a lda n).transpose.BlockTriangular id := by
    intro i j hij
    have : ¬ i.val ≤ j.val := by
      simp only [id] at hij
      exact Nat.not_le.2 hij
    show (if i.val ≤ j.val then rd a (j.val * lda + i.val) else 0) = 0
    rw [if_neg this]
  rw [← Matrix.det_transpose, Matrix.det_of_upperTriangular htri, Finset.prod_ne_zero_iff]
  intro i _
  simpa [lowerTriangle] using hd i.val i.isLt

theorem mul_left_cancel_of_det {K : Type} [Field K] {n p : Nat} (A : Matrix (Fin n) (Fin n) K)
    (X Y : Matrix (Fin n) (Fin p) K) (hA : A.det ≠ 0) (h : A * X = A * Y) : X = Y := by
  have hu : IsUnit A.det := isUnit_iff_ne_zero.2 hA
  rw [← Matrix.nonsing_inv_mul_cancel_left A X hu, h, Matrix.nonsing_inv_mul_cancel_left A Y hu]

/-- C6. Round trip, in both modes: on valid shapes with `n, nrhs ≥ 1` and a
nonzero diagonal, if `b` holds `A * X₀` with `A = Uᵀ * U` (Upper) or
`A = L * Lᵀ` (Lower), `Dpotrs` with the exact reference solve returns normally
and leaves exactly `X₀` in `b`. -/
theorem C6_round_trip {K : Type} [Field K] (n nrhs lda ldb : Nat) (a b : List K)
    (X₀ : Matrix (Fin n) (Fin nrhs) K)
    (hn : 1 ≤ n) (hnrhs : 1 ≤ nrhs) (hlda : n ≤ lda) (ha : lda * (n - 1) + n ≤ a.length)
    (hldb : nrhs ≤ ldb) (hb : ldb * (n - 1) + nrhs ≤ b.length)
    (hd : ∀ i < n, rd a (i * lda + i) ≠ 0) :
    (rhsMatrix b ldb n nrhs =
        ((upperTriangle a lda n).transpose * upperTriangle a lda n) * X₀ →
      (Dpotrs Dtrsm Uplo.Upper (n : Int) (nrhs : Int) a (lda : Int) b (ldb : Int)).err = none ∧
      rhsMatrix (Dpotrs Dtrsm Uplo.Upper (n : Int) (nrhs : Int) a (lda : Int) b (ldb : Int)).b
        ldb n nrhs = X₀) ∧
    (rhsMatrix b ldb n nrhs =
        (lowerTriangle a lda n * (lowerTriangle a lda n).transpose) * X₀ →
      (Dpotrs Dtrsm Uplo.Lower (n : Int) (nrhs : Int) a (lda : Int) b (ldb : Int)).err = none ∧
      rhsMatrix (Dpotrs Dtrsm Uplo.Lower (n : Int) (nrhs : Int) a (lda : Int) b (ldb : Int)).b
        ldb n nrhs = X₀) := by
  constructor
  · intro hB
    rw [Dpotrs_upper_eq n nrhs lda ldb a b hn hnrhs hlda ha hldb hb]
    refine ⟨rfl, ?_⟩
    apply mul_left_cancel_of_det ((upperTriangle a lda n).transpose * upperTriangle a lda n)
    · rw [Matrix.det_mul, Matrix.det_transpose]
      exact mul_ne_zero (upperTriangle_det a lda n hd) (upperTriangle_det a lda n hd)
    · rw [← hB]
      exact upper_product_solved n nrhs lda ldb a b hldb hb hd
  · intro hB
    rw [Dpotrs_lower_eq n nrhs lda ldb a b hn hnrhs hlda ha hldb hb]
    refine ⟨rfl, ?_⟩
    apply mul_left_cancel_of_det (lowerTriangle a lda n * (lowerTriangle a lda n).transpose)
    · rw [Matrix.det_mul, Matrix.det_transpose]
      exact mul_ne_zero (lowerTriangle_det a lda n hd) (lowerTriangle_det a lda n hd)
    · rw [← hB]
      exact lower_product_solved n nrhs lda ldb a b hldb hb hd

theorem C6_round_trip_witness :
    ((Dpotrs (K := ℚ) Dtrsm Uplo.Upper ((2 : Nat) : Int) ((2 : Nat) : Int) [2, 1, 1, 3]
        ((2 : Nat) : Int) [10, 16, 32, 44] ((2 : Nat) : Int)).err = none ∧
      rhsMatrix (Dpotrs (K := ℚ) Dtrsm Uplo.Upper ((2 : Nat) : Int) ((2 : Nat) : Int)
        [2, 1, 1, 3] ((2 : Nat) : Int) [10, 16, 32, 44] ((2 : Nat) : Int)).b 2 2 2 =
        !![1, 2; 3, 4]) ∧
    ((Dpotrs (K := ℚ) Dtrsm Uplo.Lower ((2 : Nat) : Int) ((2 : Nat) : Int) [2, 1, 1, 3]
        ((2 : Nat) : Int) [10, 16, 32, 44] ((2 : Nat) : Int)).err = none ∧
      rhsMatrix (Dpotrs (K := ℚ) Dtrsm Uplo.Lower ((2 : Nat) : Int) ((2 : Nat) : Int)
        [2, 1, 1, 3] ((2 : Nat) : Int) [10, 16, 32, 44] ((2 : Nat) : Int)).b 2 2 2 =
        !![1, 2; 3, 4]) := by
  have h := C6_round_trip (K := ℚ) 2 2 2 2 [2, 1, 1, 3] [10, 16, 32, 44] !![1, 2; 3, 4]
    (by decide) (by decide) (by decide) (by decide) (by decide) (by decide)
    (by intro i hi; interval_cases i <;> simp [rd])
  refine ⟨h.1 ?_, h.2 ?_⟩
  · ext i j
    fin_cases i <;> fin_cases j <;>
      simp [rhsMatrix, upperTriangle, rd, Matrix.mul_apply, Fin.sum_univ_two] <;> norm_num
  · ext i j
    fin_cases i <;> fin_cases j <;>
      simp [rhsMatrix, lowerTriangle, rd, Matrix.mul_apply, Fin.sum_univ_two] <;> norm_num

/-! ## The solve reads the selected triangle only -/

theorem substEntry_congr {K : Type} [Field K] (c c₂ : Nat → Nat → K) (unitDiag : Bool)
    (alpha : K) (pos : Nat → Nat → Nat) (u s : Nat) (x : List K)
    (h : ∀ k ≤ u, c u k = c₂ u k) :
    substEntry c unitDiag alpha pos u s x = substEntry c₂ unitDiag alpha pos u s x := by
  rw [substEntry_eq, substEntry_eq]
  congr 1
  unfold substVal
  have hs : ∑ k in Finset.range u, c u k * rd x (pos k s) =
      ∑ k in Finset.range u, c₂ u k * rd x (pos k s) := by
    apply Finset.sum_congr rfl
    intro k hk
    rw [h k (by have := Finset.mem_range.1 hk; omega)]
  rw [hs, h u (le_refl u)]

theorem substRow_congr {K : Type} [Field K] (c c₂ : Nat → Nat → K) (unitDiag : Bool)
    (alpha : K) (pos : Nat → Nat → Nat) (S u : Nat) (x : List K)
    (h : ∀ k ≤ u, c u k = c₂ u k) :
    substRow c unitDiag alpha pos S u x = substRow c₂ unitDiag alpha pos S u x := by
  induction S with
  | zero => rfl
  | succ S ih => rw [substRow_succ, substRow_succ, ih, substEntry_congr c c₂ _ _ _ _ _ _ h]

theorem forwardSubst_congr {K : Type} [Field K] (c c₂ : Nat → Nat → K) (unitDiag : Bool)
    (alpha : K) (pos : Nat → Nat → Nat) (U S : Nat) (x : List K)
    (h : ∀ u < U, ∀ k ≤ u, c u k = c₂ u k) :
    forwardSubst c unitDiag alpha pos U S x = forwardSubst c₂ unitDiag alpha pos U S x := by
  induction U with
  | zero => rfl
  | succ U ih =>
    rw [forwardSubst_succ, forwardSubst_succ, ih (fun u hu => h u (by omega)),
      substRow_congr c c₂ _ _ _ _ _ _ (h U (by omega))]

theorem dtrsmCore_upper_congr {K : Type} [Field K] (tA : Transpose) (m n : Nat) (a₁ a₂ : List K)
    (lda : Nat) (b : List K) (ldb : Nat)
    (h : ∀ i < m, ∀ j < m, inTriangle Uplo.Upper i j →
      rd a₁ (i * lda + j) = rd a₂ (i * lda + j)) :
    dtrsmCore Side.Left Uplo.Upper tA Diag.NonUnit m n 1 a₁ lda b ldb =
      dtrsmCore Side.Left Uplo.Upper tA Diag.NonUnit m n 1 a₂ lda b ldb := by
  cases tA
  · rw [dtrsmCore_upper_notrans, dtrsmCore_upper_notrans]
    apply forwardSubst_congr
    intro u hu k hk
    exact h _ (by omega) _ (by omega) (Or.inl ⟨rfl, by omega⟩)
  · rw [dtrsmCore_upper_trans, dtrsmCore_upper_trans]
    apply forwardSubst_congr
    intro u hu k hk
    exact h _ (by omega) _ (by omega) (Or.inl ⟨rfl, by omega⟩)
  · show forwardSubst (fun u k => rd a₁ (k * lda + u)) false 1 (fun u t => u * ldb + t) m n b =
      forwardSubst (fun u k => rd a₂ (k * lda + u)) false 1 (fun u t => u * ldb + t) m n b
    apply forwardSubst_congr
    intro u hu k hk
    exact h _ (by omega) _ (by omega) (Or.inl ⟨rfl, by omega⟩)

theorem dtrsmCore_lower_congr {K : Type} [Field K] (tA : Transpose) (m n : Nat) (a₁ a₂ : List K)
    (lda : Nat) (b : List K) (ldb : Nat)
    (h : ∀ i < m, ∀ j < m, inTriangle Uplo.Lower i j →
      rd a₁ (i * lda + j) = rd a₂ (i * lda + j)) :
    dtrsmCore Side.Left Uplo.Lower tA Diag.NonUnit m n 1 a₁ lda b ldb =
      dtrsmCore Side.Left Uplo.Lower tA Diag.NonUnit m n 1 a₂ lda b ldb := by
  cases tA
  · rw [dtrsmCore_lower_notrans, dtrsmCore_lower_notrans]
    apply forwardSubst_congr
    intro u hu k hk
    exact h _ (by omega) _ (by omega) (Or.inr ⟨rfl, by omega⟩)
  · rw [dtrsmCore_lower_trans, dtrsmCore_lower_trans]
    apply forwardSubst_congr
    intro u hu k hk
    exact h _ (by omega) _ (by omega) (Or.inr ⟨rfl, by omega⟩)
  · show forwardSubst (fun u k => rd a₁ ((m - 1 - k) * lda + (m - 1 - u))) false 1
        (fun u t => (m - 1 - u) * ldb + t) m n b =
      forwardSubst (fun u k => rd a₂ ((m - 1 - k) * lda + (m - 1 - u))) false 1
        (fun u t => (m - 1 - u) * ldb + t) m n b
    apply forwardSubst_congr
    intro u hu k hk
    exact h _ (by omega) _ (by omega) (Or.inr ⟨rfl, by omega⟩)

theorem cast_shape (lda m n len : Nat) (h : lda * (m - 1) + n ≤ len) :
    (lda : Int) * ((m : Int) - 1) + (n : Int) ≤ (len : Int) := by
  rcases Nat.eq_zero_or_pos m with hm | hm
  · subst hm
    simp only [Nat.zero_sub, Nat.mul_zero, Nat.zero_add] at h
    have h1 : (0 : Int) ≤ (lda : Int) := Int.ofNat_nonneg lda
    simp only [Nat.cast_zero, zero_sub, mul_neg, mul_one]
    omega
  · have h2 : ((lda * (m - 1) + n : Nat) : Int) ≤ (len : Int) := by exact_mod_cast h
    rw [Nat.cast_add, Nat.cast_mul, Nat.cast_sub hm] at h2
    simpa using h2

/-- C7. The opposite triangle is not read: on valid shapes, two factor buffers
that agree on every entry of the triangle the mode selects give, with the
reference solve, the same right-hand-side buffer and the same failure status. -/
theorem C7_opposite_triangle_not_read {K : Type} [Field K] (uplo : Uplo)
    (n nrhs lda ldb : Nat) (a₁ a₂ b : List K)
    (hu : uplo = Uplo.Upper ∨ uplo = Uplo.Lower)
    (hlda : max 1 n ≤ lda) (ha₁ : lda * (n - 1) + n ≤ a₁.length)
    (ha₂ : lda * (n - 1) + n ≤ a₂.length)
    (hldb : max 1 nrhs ≤ ldb) (hb : ldb * (n - 1) + nrhs ≤ b.length)
    (h : ∀ i < n, ∀ j < n, inTriangle uplo i j → rd a₁ (i * lda + j) = rd a₂ (i * lda + j)) :
    (Dpotrs Dtrsm uplo (n : Int) (nrhs : Int) a₁ (lda : Int) b (ldb : Int)).b =
      (Dpotrs Dtrsm uplo (n : Int) (nrhs : Int) a₂ (lda : Int) b (ldb : Int)).b ∧
    (Dpotrs Dtrsm uplo (n : Int) (nrhs : Int) a₁ (lda : Int) b (ldb : Int)).err =
      (Dpotrs Dtrsm uplo (n : Int) (nrhs : Int) a₂ (lda : Int) b (ldb : Int)).err := by
  by_cases h0 : n = 0 ∨ nrhs = 0
  · have h0i : (n : Int) = 0 ∨ (nrhs : Int) = 0 := by omega
    rw [Dpotrs_valid Dtrsm uplo n nrhs a₁ lda b ldb hu (by omega) (cast_shape _ _ _ _ ha₁)
        (by omega) (cast_shape _ _ _ _ hb),
      Dpotrs_valid Dtrsm uplo n nrhs a₂ lda b ldb hu (by omega) (cast_shape _ _ _ _ ha₂)
        (by omega) (cast_shape _ _ _ _ hb), if_pos h0i, if_pos h0i]
    exact ⟨rfl, rfl⟩
  · have hn : 1 ≤ n := by omega
    have hnrhs : 1 ≤ nrhs := by omega
    rcases hu with hu | hu
    · subst hu
      rw [Dpotrs_upper_eq n nrhs lda ldb a₁ b hn hnrhs (by omega) ha₁ (by omega) hb,
        Dpotrs_upper_eq n nrhs lda ldb a₂ b hn hnrhs (by omega) ha₂ (by omega) hb]
      refine ⟨?_, rfl⟩
      show dtrsmCore _ _ _ _ _ _ _ _ _ _ _ = dtrsmCore _ _ _ _ _ _ _ _ _ _ _
      rw [dtrsmCore_upper_congr Transpose.Trans n nrhs a₁ a₂ lda b ldb h,
        dtrsmCore_upper_congr Transpose.NoTrans n nrhs a₁ a₂ lda _ ldb h]
    · subst hu
      rw [Dpotrs_lower_eq n nrhs lda ldb a₁ b hn hnrhs (by omega) ha₁ (by omega) hb,
        Dpotrs_lower_eq n nrhs lda ldb a₂ b hn hnrhs (by omega) ha₂ (by omega) hb]
      refine ⟨?_, rfl⟩
      show dtrsmCore _ _ _ _ _ _ _ _ _ _ _ = dtrsmCore _ _ _ _ _ _ _ _ _ _ _
      rw [dtrsmCore_lower_congr Transpose.NoTrans n nrhs a₁ a₂ lda b ldb h,
        dtrsmCore_lower_congr Transpose.Trans n nrhs a₁ a₂ lda _ ldb h]

theorem C7_opposite_triangle_not_read_witness :
    (Dpotrs (K := ℚ) Dtrsm Uplo.Upper ((2 : Nat) : Int) ((1 : Nat) : Int) [2, 1, 0, 3]
        ((2 : Nat) : Int) [4, 12] ((1 : Nat) : Int)).b =
      (Dpotrs (K := ℚ) Dtrsm Uplo.Upper ((2 : Nat) : Int) ((1 : Nat) : Int) [2, 1, 99, 3]
        ((2 : Nat) : Int) [4, 12] ((1 : Nat) : Int)).b ∧
    (Dpotrs (K := ℚ) Dtrsm Uplo.Upper ((2 : Nat) : Int) ((1 : Nat) : Int) [2, 1, 0, 3]
        ((2 : Nat) : Int) [4, 12] ((1 : Nat) : Int)).err =
      (Dpotrs (K := ℚ) Dtrsm Uplo.Upper ((2 : Nat) : Int) ((1 : Nat) : Int) [2, 1, 99, 3]
        ((2 : Nat) : Int) [4, 12] ((1 : Nat) : Int)).err :=
  C7_opposite_triangle_not_read Uplo.Upper 2 1 2 1 [2, 1, 0, 3] [2, 1, 99, 3] [4, 12]
    (Or.inl rfl) (by decide) (by decide) (by decide) (by decide) (by decide)
    (by
      intro i hi j hj ht
      interval_cases i <;> interval_cases j <;> simp [rd, inTriangle] at ht ⊢)

/-! ## Frame -/

theorem Dtrsm_frame {K : Type} [Field K] (s : Side) (ul : Uplo) (tA : Transpose) (d : Diag)
    (m n : Int) (alpha : K) (a : List K) (lda : Int) (b : List K) (ldb : Int) :
    (Dtrsm s ul tA d m n alpha a lda b ldb).a = a ∧
    (Dtrsm s ul tA d m n alpha a lda b ldb).b.length = b.length := by
  unfold Dtrsm
  split_ifs
  · exact ⟨rfl, dtrsmCore_length _ _ _ _ _ _ _ _ _ _ _⟩
  · exact ⟨rfl, rfl⟩

theorem Dpotrs_frame {K : Type} [One K] (dtrsm : Solver K)
    (hf : ∀ s ul tA d m n alpha a lda b ldb,
      (dtrsm s ul tA d m n alpha a lda b ldb).a = a ∧
      (dtrsm s ul tA d m n alpha a lda b ldb).b.length = b.length)
    (uplo : Uplo) (n nrhs : Int) (a : List K) (lda : Int) (b : List K) (ldb : Int) :
    (Dpotrs dtrsm uplo n nrhs a lda b ldb).a = a ∧
    (Dpotrs dtrsm uplo n nrhs a lda b ldb).b.length = b.length := by
  unfold Dpotrs
  split_ifs with h1 h2 h3
  · exact ⟨rfl, rfl⟩
  · split
    · exact ⟨rfl, rfl⟩
    · split
      · exact ⟨rfl, rfl⟩
      · exact ⟨rfl, rfl⟩
  · split
    · exact ⟨rfl, rfl⟩
    · split
      · exact ⟨rfl, rfl⟩
      · simp only []
        split
        · exact hf _ _ _ _ _ _ _ _ _ _ _
        · obtain ⟨e1, e2⟩ := hf Side.Left Uplo.Upper Transpose.Trans Diag.NonUnit n nrhs 1 a lda b ldb
          obtain ⟨e3, e4⟩ := hf Side.Left Uplo.Upper Transpose.NoTrans Diag.NonUnit n nrhs 1
            (dtrsm Side.Left Uplo.Upper Transpose.Trans Diag.NonUnit n nrhs 1 a lda b ldb).a lda
            (dtrsm Side.Left Uplo.Upper Transpose.Trans Diag.NonUnit n nrhs 1 a lda b ldb).b ldb
          exact ⟨e3.trans e1, e4.trans e2⟩
  · split
    · exact ⟨rfl, rfl⟩
    · split
      · exact ⟨rfl, rfl⟩
      · simp only []
        split
        · exact hf _ _ _ _ _ _ _ _ _ _ _
        · obtain ⟨e1, e2⟩ := hf Side.Left Uplo.Lower Transpose.NoTrans Diag.NonUnit n nrhs 1 a lda b ldb
          obtain ⟨e3, e4⟩ := hf Side.Left Uplo.Lower Transpose.Trans Diag.NonUnit n nrhs 1
            (dtrsm Side.Left Uplo.Lower Transpose.NoTrans Diag.NonUnit n nrhs 1 a lda b ldb).a lda
            (dtrsm Side.Left Uplo.Lower Transpose.NoTrans Diag.NonUnit n nrhs 1 a lda b ldb).b ldb
          exact ⟨e3.trans e1, e4.trans e2⟩

/-- C9. Only the contents of the right-hand side change: after every call of
`Dpotrs` with the reference solve, returning normally or failing, the factor
buffer is as on entry and the right-hand-side buffer has the length it had. -/
theorem C9_only_rhs_contents_change {K : Type} [Field K] (uplo : Uplo) (n nrhs : Int)
    (a : List K) (lda : Int) (b : List K) (ldb : Int) :
    (Dpotrs Dtrsm uplo n nrhs a lda b ldb).a = a ∧
    (Dpotrs Dtrsm uplo n nrhs a lda b ldb).b.length = b.length :=
  Dpotrs_frame Dtrsm Dtrsm_frame uplo n nrhs a lda b ldb

/-! ## Lower mode: the two solves -/

/-- C11. Lower mode on valid shapes with `n, nrhs ≥ 1`, for any injected solve:
`Dpotrs` first calls the solve with `(Left, Lower, NoTrans, NonUnit, n, nrhs, 1)`
on the buffers given; if that call returns normally, the outcome of `Dpotrs`
is that of the solve with `(Left, Lower, Trans, NonUnit, n, nrhs, 1)` on the
buffers the first call left, and if it fails, its failure is the outcome. -/
theorem C11_lower_operand_selection {K : Type} [One K] (dtrsm : Solver K) (n nrhs : Int)
    (a : List K) (lda : Int) (b : List K) (ldb : Int)
    (hn : 1 ≤ n) (hnrhs : 1 ≤ nrhs)
    (hlda : n ≤ lda) (ha : lda * (n - 1) + n ≤ (a.length : Int))
    (hldb : nrhs ≤ ldb) (hb : ldb * (n - 1) + nrhs ≤ (b.length : Int)) :
    ((dtrsm Side.Left Uplo.Lower Transpose.NoTrans Diag.NonUnit n nrhs 1 a lda b ldb).err = none →
      Dpotrs dtrsm Uplo.Lower n nrhs a lda b ldb =
        dtrsm Side.Left Uplo.Lower Transpose.Trans Diag.NonUnit n nrhs 1
          (dtrsm Side.Left Uplo.Lower Transpose.NoTrans Diag.NonUnit n nrhs 1 a lda b ldb).a lda
          (dtrsm Side.Left Uplo.Lower Transpose.NoTrans Diag.NonUnit n nrhs 1 a lda b ldb).b
          ldb) ∧
    ((dtrsm Side.Left Uplo.Lower Transpose.NoTrans Diag.NonUnit n nrhs 1 a lda b ldb).err ≠ none →
      Dpotrs dtrsm Uplo.Lower n nrhs a lda b ldb =
        dtrsm Side.Left Uplo.Lower Transpose.NoTrans Diag.NonUnit n nrhs 1 a lda b ldb) := by
  rw [Dpotrs_valid dtrsm Uplo.Lower n nrhs a lda b ldb (Or.inr rfl) (by omega) ha (by omega) hb]
  have h0 : ¬ (n = 0 ∨ nrhs = 0) := by omega
  have h1 : ¬ (Uplo.Lower = Uplo.Upper) := by decide
  rw [if_neg h0, if_neg h1]
  constructor
  · intro h
    simp only [h]
  · intro h
    cases he : (dtrsm Side.Left Uplo.Lower Transpose.NoTrans Diag.NonUnit n nrhs 1 a lda b
        ldb).err with
    | none => exact absurd he h
    | some e => simp only [he]

theorem C11_lower_operand_selection_witness :
    Dpotrs (K := ℚ) Dtrsm Uplo.Lower 2 1 [2, 0, 1, 3] 2 [4, 12] 1 =
      Dtrsm Side.Left Uplo.Lower Transpose.Trans Diag.NonUnit 2 1 1
        (Dtrsm Side.Left Uplo.Lower Transpose.NoTrans Diag.NonUnit 2 1 1 [2, 0, 1, 3] 2
          [4, 12] 1).a 2
        (Dtrsm Side.Left Uplo.Lower Transpose.NoTrans Diag.NonUnit 2 1 1 [2, 0, 1, 3] 2
          [4, 12] 1).b 1 :=
  (C11_lower_operand_selection Dtrsm 2 1 [2, 0, 1, 3] 2 [4, 12] 1 (by decide) (by decide)
    (by decide) (by decide) (by decide) (by decide)).1 (by decide)

/-! ## The worked example -/

theorem worked_example_eval :
    (Dpotrs (K := ℚ) Dtrsm Uplo.Upper 2 1 [2, 1, 0, 3] 2 [4, 12] 1).b = [4 / 9, 10 / 9] := by
  simp [Dpotrs, checkMatrix, Dtrsm, dtrsmPre, dtrsmCore, forwardSubst, substRow, substEntry,
    opEntry, rd, List.range, List.range.loop]
  norm_num

/-- C12, as amended. For `n = 2`, `nrhs = 1`, mode `Upper`, the factor
`F = [[2,1],[0,3]]` (stride 2) and `B = [[4],[12]]` (stride 1), `Dpotrs` over the
rationals returns normally and leaves `X = [[4/9],[10/9]]` in the
right-hand-side buffer. -/
theorem C12_worked_example_solution :
    (Dpotrs (K := ℚ) Dtrsm Uplo.Upper 2 1 [2, 1, 0, 3] 2 [4, 12] 1).err = none ∧
    (Dpotrs (K := ℚ) Dtrsm Uplo.Upper 2 1 [2, 1, 0, 3] 2 [4, 12] 1).b = [4 / 9, 10 / 9] :=
  ⟨by decide, worked_example_eval⟩

/-- C12, as stated, fails: on the worked example the buffer left by `Dpotrs` is
not `[0, 1.2]`. -/
theorem C12_worked_example_counterexample :
    (Dpotrs (K := ℚ) Dtrsm Uplo.Upper 2 1 [2, 1, 0, 3] 2 [4, 12] 1).b ≠ [0, 6 / 5] := by
  rw [worked_example_eval]
  norm_num

/-! ## Failures raised by Dpotrs itself -/

theorem Dtrsm_err_cases {K : Type} [Field K] (s : Side) (ul : Uplo) (tA : Transpose) (d : Diag)
    (m n : Int) (alpha : K) (a : List K) (lda : Int) (b : List K) (ldb : Int) :
    (Dtrsm s ul tA d m n alpha a lda b ldb).err = none ∨
    (Dtrsm s ul tA d m n alpha a lda b ldb).err = some Failure.solver := by
  unfold Dtrsm
  split_ifs
  · exact Or.inl rfl
  · exact Or.inr rfl

theorem Dpotrs_bad_mode {K : Type} [One K] (dtrsm : Solver K) (uplo : Uplo) (n nrhs : Int)
    (a : List K) (lda : Int) (b : List K) (ldb : Int)
    (hu : ¬ (uplo = Uplo.Upper ∨ uplo = Uplo.Lower)) :
    Dpotrs dtrsm uplo n nrhs a lda b ldb = ⟨a, b, some Failure.badUplo⟩ := by
  have hm : uplo ≠ Uplo.Upper ∧ uplo ≠ Uplo.Lower :=
    ⟨fun h => hu (Or.inl h), fun h => hu (Or.inr h)⟩
  unfold Dpotrs
  rw [if_pos hm]

theorem Dpotrs_bad_shape {K : Type} [One K] (dtrsm : Solver K) (uplo : Uplo) (n nrhs : Int)
    (a : List K) (lda : Int) (b : List K) (ldb : Int)
    (hu : uplo = Uplo.Upper ∨ uplo = Uplo.Lower)
    (h : ¬ (max 1 n ≤ lda ∧ lda * (n - 1) + n ≤ (a.length : Int) ∧ max 1 nrhs ≤ ldb ∧
      ldb * (n - 1) + nrhs ≤ (b.length : Int))) :
    Dpotrs dtrsm uplo n nrhs a lda b ldb = ⟨a, b, some Failure.dimension⟩ := by
  have hm : ¬ (uplo ≠ Uplo.Upper ∧ uplo ≠ Uplo.Lower) := by
    rcases hu with h1 | h1 <;> simp [h1]
  unfold Dpotrs
  rw [if_neg hm]
  rcases checkMatrix_cases n n a lda with ha | ha
  · rcases checkMatrix_cases n nrhs b ldb with hb | hb
    · exfalso
      apply h
      have h1 := (checkMatrix_eq_none_iff _ _ _ _).1 ha
      have h2 := (checkMatrix_eq_none_iff _ _ _ _).1 hb
      exact ⟨h1.1, h1.2, h2.1, h2.2⟩
    · simp only [ha, hb]
  · simp only [ha]

theorem Dpotrs_valid_err {K : Type} [One K] (dtrsm : Solver K)
    (hs : ∀ s ul tA d m n alpha a lda b ldb,
      (dtrsm s ul tA d m n alpha a lda b ldb).err = none ∨
      (dtrsm s ul tA d m n alpha a lda b ldb).err = some Failure.solver)
    (uplo : Uplo) (n nrhs : Int) (a : List K) (lda : Int) (b : List K) (ldb : Int)
    (hu : uplo = Uplo.Upper ∨ uplo = Uplo.Lower)
    (hlda : max 1 n ≤ lda) (ha : lda * (n - 1) + n ≤ (a.length : Int))
    (hldb : max 1 nrhs ≤ ldb) (hb : ldb * (n - 1) + nrhs ≤ (b.length : Int)) :
    (Dpotrs dtrsm uplo n nrhs a lda b ldb).err = none ∨
    (Dpotrs dtrsm uplo n nrhs a lda b ldb).err = some Failure.solver := by
  rw [Dpotrs_valid dtrsm uplo n nrhs a lda b ldb hu hlda ha hldb hb]
  split_ifs
  · exact Or.inl rfl
  · simp only []
    split
    · exact hs _ _ _ _ _ _ _ _ _ _ _
    · exact hs _ _ _ _ _ _ _ _ _ _ _
  · simp only []
    split
    · exact hs _ _ _ _ _ _ _ _ _ _ _
    · exact hs _ _ _ _ _ _ _ _ _ _ _

theorem Dpotrs_err_badUplo_iff {K : Type} [One K] (dtrsm : Solver K)
    (hs : ∀ s ul tA d m n alpha a lda b ldb,
      (dtrsm s ul tA d m n alpha a lda b ldb).err = none ∨
      (dtrsm s ul tA d m n alpha a lda b ldb).err = some Failure.solver)
    (uplo : Uplo) (n nrhs : Int) (a : List K) (lda : Int) (b : List K) (ldb : Int) :
    (Dpotrs dtrsm uplo n nrhs a lda b ldb).err = some Failure.badUplo ↔
      ¬ (uplo = Uplo.Upper ∨ uplo = Uplo.Lower) := by
  by_cases hu : uplo = Uplo.Upper ∨ uplo = Uplo.Lower
  · by_cases hv : max 1 n ≤ lda ∧ lda * (n - 1) + n ≤ (a.length : Int) ∧ max 1 nrhs ≤ ldb ∧
        ldb * (n - 1) + nrhs ≤ (b.length : Int)
    · rcases Dpotrs_valid_err dtrsm hs uplo n nrhs a lda b ldb hu hv.1 hv.2.1 hv.2.2.1 hv.2.2.2
        with h | h <;> simp [h, hu]
    · rw [Dpotrs_bad_shape dtrsm uplo n nrhs a lda b ldb hu hv]
      simp [hu]
  · rw [Dpotrs_bad_mode dtrsm uplo n nrhs a lda b ldb hu]
    simp [hu]

theorem Dpotrs_err_dimension_iff {K : Type} [One K] (dtrsm : Solver K)
    (hs : ∀ s ul tA d m n alpha a lda b ldb,
      (dtrsm s ul tA d m n alpha a lda b ldb).err = none ∨
      (dtrsm s ul tA d m n alpha a lda b ldb).err = some Failure.solver)
    (uplo : Uplo) (n nrhs : Int) (a : List K) (lda : Int) (b : List K) (ldb : Int) :
    (Dpotrs dtrsm uplo n nrhs a lda b ldb).err = some Failure.dimension ↔
      (uplo = Uplo.Upper ∨ uplo = Uplo.Lower) ∧
      ¬ (max 1 n ≤ lda ∧ lda * (n - 1) + n ≤ (a.length : Int) ∧ max 1 nrhs ≤ ldb ∧
        ldb * (n - 1) + nrhs ≤ (b.length : Int)) := by
  by_cases hu : uplo = Uplo.Upper ∨ uplo = Uplo.Lower
  · by_cases hv : max 1 n ≤ lda ∧ lda * (n - 1) + n ≤ (a.length : Int) ∧ max 1 nrhs ≤ ldb ∧
        ldb * (n - 1) + nrhs ≤ (b.length : Int)
    · constructor
      · intro he
        rcases Dpotrs_valid_err dtrsm hs uplo n nrhs a lda b ldb hu hv.1 hv.2.1 hv.2.2.1
          hv.2.2.2 with h | h
        · rw [h] at he
          exact absurd he (by simp)
        · rw [h] at he
          exact absurd he (by simp)
      · intro h
        exact absurd hv h.2
    · rw [Dpotrs_bad_shape dtrsm uplo n nrhs a lda b ldb hu hv]
      exact ⟨fun _ => ⟨hu, hv⟩, fun _ => rfl⟩
  · rw [Dpotrs_bad_mode dtrsm uplo n nrhs a lda b ldb hu]
    constructor
    · intro he
      exact absurd he (by simp)
    · intro h
      exact absurd h.1 hu

/-- C13. No singularity detection. For an injected solve whose own failures are
of kind `solver`, whether `Dpotrs` ends in `badUplo` or in a dimension failure
is the same for any two pairs of buffers of the same lengths: it depends on
`uplo`, `n`, `nrhs`, `lda`, `ldb` and the two lengths only. On a recognised
mode and valid shapes with `n, nrhs ≥ 1`, whatever the factor holds (a zero
diagonal included), `Dpotrs` ends in neither, the first solve is called, and
when it returns normally the outcome is that of the second solve on the
buffers it left. -/
theorem C13_no_singularity_detection {K : Type} [One K] (dtrsm : Solver K)
    (hs : ∀ s ul tA d m n alpha a lda b ldb,
      (dtrsm s ul tA d m n alpha a lda b ldb).err = none ∨
      (dtrsm s ul tA d m n alpha a lda b ldb).err = some Failure.solver)
    (uplo : Uplo) (n nrhs lda ldb : Int) (a a₂ b b₂ : List K)
    (hla : a.length = a₂.length) (hlb : b.length = b₂.length) :
    ((Dpotrs dtrsm uplo n nrhs a lda b ldb).err = some Failure.badUplo ↔
      (Dpotrs dtrsm uplo n nrhs a₂ lda b₂ ldb).err = some Failure.badUplo) ∧
    ((Dpotrs dtrsm uplo n nrhs a lda b ldb).err = some Failure.dimension ↔
      (Dpotrs dtrsm uplo n nrhs a₂ lda b₂ ldb).err = some Failure.dimension) ∧
    ((uplo = Uplo.Upper ∨ uplo = Uplo.Lower) → 1 ≤ n → 1 ≤ nrhs →
      n ≤ lda → lda * (n - 1) + n ≤ (a.length : Int) →
      nrhs ≤ ldb → ldb * (n - 1) + nrhs ≤ (b.length : Int) →
      (Dpotrs dtrsm uplo n nrhs a lda b ldb).err ≠ some Failure.badUplo ∧
      (Dpotrs dtrsm uplo n nrhs a lda b ldb).err ≠ some Failure.dimension ∧
      ((dtrsm Side.Left uplo (if uplo = Uplo.Upper then Transpose.Trans else Transpose.NoTrans)
          Diag.NonUnit n nrhs 1 a lda b ldb).err = none →
        Dpotrs dtrsm uplo n nrhs a lda b ldb =
          dtrsm Side.Left uplo
            (if uplo = Uplo.Upper then Transpose.NoTrans else Transpose.Trans)
            Diag.NonUnit n nrhs 1
            (dtrsm Side.Left uplo
              (if uplo = Uplo.Upper then Transpose.Trans else Transpose.NoTrans)
              Diag.NonUnit n nrhs 1 a lda b ldb).a lda
            (dtrsm Side.Left uplo
              (if uplo = Uplo.Upper then Transpose.Trans else Transpose.NoTrans)
              Diag.NonUnit n nrhs 1 a lda b ldb).b ldb)) := by
  refine ⟨?_, ?_, ?_⟩
  · rw [Dpotrs_err_badUplo_iff dtrsm hs, Dpotrs_err_badUplo_iff dtrsm hs]
  · rw [Dpotrs_err_dimension_iff dtrsm hs, Dpotrs_err_dimension_iff dtrsm hs, hla, hlb]
  · intro hu hn hnrhs hlda ha hldb hb
    have hv : max 1 n ≤ lda ∧ lda * (n - 1) + n ≤ (a.length : Int) ∧ max 1 nrhs ≤ ldb ∧
        ldb * (n - 1) + nrhs ≤ (b.length : Int) := ⟨by omega, ha, by omega, hb⟩
    refine ⟨?_, ?_, ?_⟩
    · intro he
      rw [Dpotrs_err_badUplo_iff dtrsm hs] at he
      exact he hu
    · intro he
      rw [Dpotrs_err_dimension_iff dtrsm hs] at he
      exact he.2 hv
    · intro h1
      rw [Dpotrs_valid dtrsm uplo n nrhs a lda b ldb hu hv.1 ha hv.2.2.1 hb]
      have h0 : ¬ (n = 0 ∨ nrhs = 0) := by omega
      rw [if_neg h0]
      rcases hu with hu | hu
      · subst hu
        simp only [if_true] at h1 ⊢
        simp only [h1]
      · subst hu
        have hne : ¬ (Uplo.Lower = Uplo.Upper) := by decide
        simp only [hne, if_false] at h1 ⊢
        simp only [h1]

theorem C13_no_singularity_detection_witness :
    (Dpotrs (K := ℚ) Dtrsm Uplo.Upper 2 1 [0, 1, 0, 3] 2 [4, 12] 1).err ≠
      some Failure.badUplo ∧
    (Dpotrs (K := ℚ) Dtrsm Uplo.Upper 2 1 [0, 1, 0, 3] 2 [4, 12] 1).err ≠
      some Failure.dimension ∧
    ((Dtrsm (K := ℚ) Side.Left Uplo.Upper
        (if Uplo.Upper = Uplo.Upper then Transpose.Trans else Transpose.NoTrans)
        Diag.NonUnit 2 1 1 [0, 1, 0, 3] 2 [4, 12] 1).err = none →
      Dpotrs (K := ℚ) Dtrsm Uplo.Upper 2 1 [0, 1, 0, 3] 2 [4, 12] 1 =
        Dtrsm Side.Left Uplo.Upper
          (if Uplo.Upper = Uplo.Upper then Transpose.NoTrans else Transpose.Trans)
          Diag.NonUnit 2 1 1
          (Dtrsm Side.Left Uplo.Upper
            (if Uplo.Upper = Uplo.Upper then Transpose.Trans else Transpose.NoTrans)
            Diag.NonUnit 2 1 1 [0, 1, 0, 3] 2 [4, 12] 1).a 2
          (Dtrsm Side.Left Uplo.Upper
            (if Uplo.Upper = Uplo.Upper then Transpose.Trans else Transpose.NoTrans)
            Diag.NonUnit 2 1 1 [0, 1, 0, 3] 2 [4, 12] 1).b 1) :=
  (C13_no_singularity_detection (K := ℚ) Dtrsm Dtrsm_err_cases Uplo.Upper 2 1 2 1
    [0, 1, 0, 3] [2, 1, 0, 3] [4, 12] [4, 12] rfl rfl).2.2 (Or.inl rfl) (by decide) (by decide)
    (by decide) (by decide) (by decide) (by decide)

/-! ## Validation is sufficient for the solves -/

theorem shape_to_nat (n m lda : Int) (len : Nat) (hn : 1 ≤ n) (hm : 0 ≤ m) (hl : 0 ≤ lda)
    (h : lda * (n - 1) + m ≤ (len : Int)) :
    lda.toNat * (n.toNat - 1) + m.toNat ≤ len := by
  obtain ⟨N, rfl⟩ := Int.eq_ofNat_of_zero_le (by omega : 0 ≤ n)
  obtain ⟨M, rfl⟩ := Int.eq_ofNat_of_zero_le hm
  obtain ⟨L, rfl⟩ := Int.eq_ofNat_of_zero_le hl
  simp only [Int.toNat_ofNat]
  have hN : 1 ≤ N := by omega
  have h2 : ((L * (N - 1) + M : Nat) : Int) ≤ (len : Int) := by
    rw [Nat.cast_add, Nat.cast_mul, Nat.cast_sub hN]
    simpa using h
  exact_mod_cast h2

theorem getElem?_eq_some_rd {K : Type} [Zero K] (x : List K) (p : Nat) (h : p < x.length) :
    x[p]? = some (rd x p) := by
  unfold rd
  simp [List.getD_eq_getElem?_getD, List.getElem?_eq_getElem h]

theorem dtrsmPre_length_congr {K : Type} (s : Side) (ul : Uplo) (m n : Int) (a a₂ : List K)
    (lda : Int) (b b₂ : List K) (ldb : Int) (ha : a₂.length = a.length)
    (hb : b₂.length = b.length) (h : dtrsmPre s ul m n a lda b ldb) :
    dtrsmPre s ul m n a₂ lda b₂ ldb := by
  unfold dtrsmPre at h ⊢
  rw [ha, hb]
  exact h

/-! ## The padding of the right-hand side -/

theorem substEntry_outside {K : Type} [Field K] (coef : Nat → Nat → K) (unitDiag : Bool)
    (alpha : K) (pos : Nat → Nat → Nat) (u s : Nat) (x : List K) (q : Nat)
    (hq : q ≠ pos u s) : rd (substEntry coef unitDiag alpha pos u s x) q = rd x q := by
  rw [substEntry_eq, rd_set]
  simp only [hq, false_and, if_false]

theorem substRow_outside {K : Type} [Field K] (coef : Nat → Nat → K) (unitDiag : Bool)
    (alpha : K) (pos : Nat → Nat → Nat) (S u : Nat) (x : List K) (q : Nat)
    (hq : ∀ s < S, q ≠ pos u s) : rd (substRow coef unitDiag alpha pos S u x) q = rd x q := by
  induction S with
  | zero => rfl
  | succ S ih =>
    rw [substRow_succ, substEntry_outside _ _ _ _ _ _ _ _ (hq S (by omega))]
    exact ih (fun s hs => hq s (by omega))

theorem forwardSubst_outside {K : Type} [Field K] (coef : Nat → Nat → K) (unitDiag : Bool)
    (alpha : K) (pos : Nat → Nat → Nat) (U S : Nat) (x : List K) (q : Nat)
    (hq : ∀ u < U, ∀ s < S, q ≠ pos u s) :
    rd (forwardSubst coef unitDiag alpha pos U S x) q = rd x q := by
  induction U with
  | zero => rfl
  | succ U ih =>
    rw [forwardSubst_succ, substRow_outside _ _ _ _ _ _ _ _ (hq U (by omega))]
    exact ih (fun u hu => hq u (by omega))

theorem dtrsmCore_left_outside {K : Type} [Field K] (ul : Uplo) (tA : Transpose) (d : Diag)
    (m n : Nat) (alpha : K) (a : List K) (lda : Nat) (b : List K) (ldb : Nat) (q : Nat)
    (hq : ∀ i < m, ∀ j < n, q ≠ i * ldb + j) :
    rd (dtrsmCore Side.Left ul tA d m n alpha a lda b ldb) q = rd b q := by
  unfold dtrsmCore
  apply forwardSubst_outside
  intro u hu s hs
  simp only [decide_True, if_true] at hu hs ⊢
  split_ifs
  · exact hq u hu s hs
  · exact hq (m - 1 - u) (by omega) s hs

theorem Dtrsm_left_outside {K : Type} [Field K] (ul : Uplo) (tA : Transpose) (d : Diag)
    (m n : Int) (alpha : K) (a : List K) (lda : Int) (b : List K) (ldb : Int) (q : Nat)
    (hq : ∀ i < m.toNat, ∀ j < n.toNat, q ≠ i * ldb.toNat + j) :
    rd (Dtrsm Side.Left ul tA d m n alpha a lda b ldb).b q = rd b q := by
  unfold Dtrsm
  split_ifs
  · exact dtrsmCore_left_outside ul tA d m.toNat n.toNat alpha a lda.toNat b ldb.toNat q hq
  · rfl

theorem Dpotrs_rhs_invariant {K : Type} [One K] (dtrsm : Solver K) (n nrhs lda ldb : Int)
    (P : List K → Prop)
    (hf : ∀ ul tA d alpha a b, P b → P (dtrsm Side.Left ul tA d n nrhs alpha a lda b ldb).b)
    (uplo : Uplo) (a b : List K) (hb : P b) :
    P (Dpotrs dtrsm uplo n nrhs a lda b ldb).b := by
  unfold Dpotrs
  split_ifs with h1 h2 h3
  · exact hb
  · split
    · exact hb
    · split
      · exact hb
      · exact hb
  · split
    · exact hb
    · split
      · exact hb
      · simp only []
        split
        · exact hf _ _ _ _ _ _ hb
        · exact hf _ _ _ _ _ _ (hf _ _ _ _ _ _ hb)
  · split
    · exact hb
    · split
      · exact hb
      · simp only []
        split
        · exact hf _ _ _ _ _ _ hb
        · exact hf _ _ _ _ _ _ (hf _ _ _ _ _ _ hb)

theorem getElem?_eq_of_rd {K : Type} [Zero K] (x y : List K) (q : Nat)
    (hl : x.length = y.length) (h : rd x q = rd y q) : x[q]? = y[q]? := by
  by_cases hq : q < x.length
  · rw [getElem?_eq_some_rd x q hq, getElem?_eq_some_rd y q (by omega), h]
  · rw [List.getElem?_eq_none (by omega), List.getElem?_eq_none (by omega)]

theorem Dpotrs_outside {K : Type} [Field K] (uplo : Uplo) (n nrhs lda ldb : Nat) (a b : List K)
    (q : Nat) (hq : ∀ i < n, ∀ j < nrhs, q ≠ i * ldb + j) :
    (Dpotrs Dtrsm uplo (n : Int) (nrhs : Int) a (lda : Int) b (ldb : Int)).b[q]? = b[q]? := by
  have h := Dpotrs_rhs_invariant (K := K) Dtrsm (n : Int) (nrhs : Int) (lda : Int) (ldb : Int)
    (fun x => x.length = b.length ∧ rd x q = rd b q)
    (fun ul tA d alpha a₂ x hx => by
      refine ⟨?_, ?_⟩
      · rw [(Dtrsm_frame Side.Left ul tA d n nrhs alpha a₂ lda x ldb).2]
        exact hx.1
      · rw [Dtrsm_left_outside ul tA d n nrhs alpha a₂ lda x ldb q
          (by simpa only [Int.toNat_ofNat] using hq)]
        exact hx.2)
    uplo a b ⟨rfl, rfl⟩
  exact getElem?_eq_of_rd _ _ q h.1 h.2

/-- C15. The padding of the right-hand side is kept: after every call of
`Dpotrs` with the reference solve, the successful ones in particular, every
position of `b` that is not `i*ldb + j` with `i < n` and `j < nrhs` holds what it
held on entry; so do the positions `i*ldb + j` with `nrhs ≤ j < ldb` between the
rows and all positions from `(n-1)*ldb + nrhs` on. -/
theorem C15_padding_preserved {K : Type} [Field K] (uplo : Uplo) (n nrhs lda ldb : Nat)
    (a b : List K) :
    (∀ q : Nat, (∀ i j : Nat, i < n → j < nrhs → q ≠ i * ldb + j) →
      (Dpotrs Dtrsm uplo (n : Int) (nrhs : Int) a (lda : Int) b (ldb : Int)).b[q]? = b[q]?) ∧
    (∀ i j : Nat, nrhs ≤ j → j < ldb →
      (Dpotrs Dtrsm uplo (n : Int) (nrhs : Int) a (lda : Int) b (ldb : Int)).b[i * ldb + j]? =
        b[i * ldb + j]?) ∧
    (∀ q : Nat, (n - 1) * ldb + nrhs ≤ q →
      (Dpotrs Dtrsm uplo (n : Int) (nrhs : Int) a (lda : Int) b (ldb : Int)).b[q]? = b[q]?) := by
  refine ⟨?_, ?_, ?_⟩
  · intro q hq
    exact Dpotrs_outside uplo n nrhs lda ldb a b q (fun i hi j hj => hq i j hi hj)
  · intro i j hj1 hj2
    apply Dpotrs_outside
    intro i₂ _ j₂ hj₂ h
    have := pos_inj ldb ldb (le_refl ldb) i j i₂ j₂ hj2 (by omega) h
    omega
  · intro q hq
    apply Dpotrs_outside
    intro i hi j hj h
    have h1 : i * ldb ≤ (n - 1) * ldb := Nat.mul_le_mul_right _ (by omega)
    omega

theorem C15_padding_preserved_witness :
    (Dpotrs (K := ℚ) Dtrsm Uplo.Upper ((2 : Nat) : Int) ((1 : Nat) : Int) [2, 1, 0, 3]
        ((2 : Nat) : Int) [4, 100, 12, 200, 300] ((2 : Nat) : Int)).b[0 * 2 + 1]? =
      ([4, 100, 12, 200, 300] : List ℚ)[0 * 2 + 1]? ∧
    (Dpotrs (K := ℚ) Dtrsm Uplo.Upper ((2 : Nat) : Int) ((1 : Nat) : Int) [2, 1, 0, 3]
        ((2 : Nat) : Int) [4, 100, 12, 200, 300] ((2 : Nat) : Int)).b[4]? =
      ([4, 100, 12, 200, 300] : List ℚ)[4]? :=
  ⟨(C15_padding_preserved (K := ℚ) Uplo.Upper 2 1 2 2 [2, 1, 0, 3]
      [4, 100, 12, 200, 300]).2.1 0 1 (by decide) (by decide),
    (C15_padding_preserved (K := ℚ) Uplo.Upper 2 1 2 2 [2, 1, 0, 3]
      [4, 100, 12, 200, 300]).2.2 4 (by decide)⟩

/-! ## The two modes on transposed factors -/

theorem rhs_eq_of_matrix_eq {K : Type} [Zero K] (x y b : List K) (ldb n nrhs : Nat)
    (hb : ldb * (n - 1) + nrhs ≤ b.length)
    (hx : x.length = b.length) (hy : y.length = b.length)
    (hxo : ∀ q, (∀ i < n, ∀ j < nrhs, q ≠ i * ldb + j) → x[q]? = b[q]?)
    (hyo : ∀ q, (∀ i < n, ∀ j < nrhs, q ≠ i * ldb + j) → y[q]? = b[q]?)
    (hm : rhsMatrix x ldb n nrhs = rhsMatrix y ldb n nrhs) : x = y := by
  apply List.ext_getElem?
  intro q
  by_cases hq : ∃ i, i < n ∧ ∃ j, j < nrhs ∧ q = i * ldb + j
  · obtain ⟨i, hi, j, hj, rfl⟩ := hq
    have hlt : i * ldb + j < b.length := pos_lt ldb n nrhs b.length hb i j hi hj
    have he : rd x (i * ldb + j) = rd y (i * ldb + j) :=
      congrFun (congrFun hm ⟨i, hi⟩) ⟨j, hj⟩
    rw [getElem?_eq_some_rd x _ (by omega), getElem?_eq_some_rd y _ (by omega), he]
  · have hq2 : ∀ i < n, ∀ j < nrhs, q ≠ i * ldb + j :=
      fun i hi j hj h => hq ⟨i, hi, j, hj, h⟩
    rw [hxo q hq2, hyo q hq2]

/-- C16. Mode symmetry under transposition: on valid shapes with `n, nrhs ≥ 1`,
if the upper triangle `U` of the first factor buffer has a nonzero diagonal and
the lower triangle of the second factor buffer is `Uᵀ`, then `Dpotrs` with the
exact reference solve returns normally in `Upper` mode on the first and in
`Lower` mode on the second, and leaves the same solution matrix; the two
right-hand-side buffers are then equal as a whole. -/
theorem C16_mode_symmetry {K : Type} [Field K] (n nrhs lda₁ lda₂ ldb : Nat)
    (a₁ a₂ b : List K) (hn : 1 ≤ n) (hnrhs : 1 ≤ nrhs)
    (hlda₁ : n ≤ lda₁) (ha₁ : lda₁ * (n - 1) + n ≤ a₁.length)
    (hlda₂ : n ≤ lda₂) (ha₂ : lda₂ * (n - 1) + n ≤ a₂.length)
    (hldb : nrhs ≤ ldb) (hb : ldb * (n - 1) + nrhs ≤ b.length)
    (hd : ∀ i < n, rd a₁ (i * lda₁ + i) ≠ 0)
    (hT : lowerTriangle a₂ lda₂ n = (upperTriangle a₁ lda₁ n).transpose) :
    (Dpotrs Dtrsm Uplo.Upper (n : Int) (nrhs : Int) a₁ (lda₁ : Int) b (ldb : Int)).err = none ∧
    (Dpotrs Dtrsm Uplo.Lower (n : Int) (nrhs : Int) a₂ (lda₂ : Int) b (ldb : Int)).err = none ∧
    rhsMatrix (Dpotrs Dtrsm Uplo.Upper (n : Int) (nrhs : Int) a₁ (lda₁ : Int) b (ldb : Int)).b
        ldb n nrhs =
      rhsMatrix (Dpotrs Dtrsm Uplo.Lower (n : Int) (nrhs : Int) a₂ (lda₂ : Int) b (ldb : Int)).b
        ldb n nrhs ∧
    (Dpotrs Dtrsm Uplo.Upper (n : Int) (nrhs : Int) a₁ (lda₁ : Int) b (ldb : Int)).b =
      (Dpotrs Dtrsm Uplo.Lower (n : Int) (nrhs : Int) a₂ (lda₂ : Int) b (ldb : Int)).b := by
  have hd₂ : ∀ i < n, rd a₂ (i * lda₂ + i) ≠ 0 := by
    intro i hi
    have h := congrFun (congrFun hT ⟨i, hi⟩) ⟨i, hi⟩
    simp only [lowerTriangle, upperTriangle, Matrix.transpose_apply, Matrix.of_apply,
      le_refl, if_true] at h
    rw [h]
    exact hd i hi
  have hmat : rhsMatrix (Dpotrs Dtrsm Uplo.Upper (n : Int) (nrhs : Int) a₁ (lda₁ : Int) b
        (ldb : Int)).b ldb n nrhs =
      rhsMatrix (Dpotrs Dtrsm Uplo.Lower (n : Int) (nrhs : Int) a₂ (lda₂ : Int) b
        (ldb : Int)).b ldb n nrhs := by
    rw [Dpotrs_upper_eq n nrhs lda₁ ldb a₁ b hn hnrhs hlda₁ ha₁ hldb hb,
      Dpotrs_lower_eq n nrhs lda₂ ldb a₂ b hn hnrhs hlda₂ ha₂ hldb hb]
    have h₁ := upper_product_solved n nrhs lda₁ ldb a₁ b hldb hb hd
    have h₂ := lower_product_solved n nrhs lda₂ ldb a₂ b hldb hb hd₂
    rw [hT, Matrix.transpose_transpose] at h₂
    apply mul_left_cancel_of_det ((upperTriangle a₁ lda₁ n).transpose * upperTriangle a₁ lda₁ n)
    · rw [Matrix.det_mul, Matrix.det_transpose]
      exact mul_ne_zero (upperTriangle_det a₁ lda₁ n hd) (upperTriangle_det a₁ lda₁ n hd)
    · exact h₁.trans h₂.symm
  refine ⟨?_, ?_, hmat, ?_⟩
  · rw [Dpotrs_upper_eq n nrhs lda₁ ldb a₁ b hn hnrhs hlda₁ ha₁ hldb hb]
  · rw [Dpotrs_lower_eq n nrhs lda₂ ldb a₂ b hn hnrhs hlda₂ ha₂ hldb hb]
  · exact rhs_eq_of_matrix_eq _ _ b ldb n nrhs hb
      (Dpotrs_frame Dtrsm Dtrsm_frame Uplo.Upper n nrhs a₁ lda₁ b ldb).2
      (Dpotrs_frame Dtrsm Dtrsm_frame Uplo.Lower n nrhs a₂ lda₂ b ldb).2
      (fun q hq => Dpotrs_outside Uplo.Upper n nrhs lda₁ ldb a₁ b q hq)
      (fun q hq => Dpotrs_outside Uplo.Lower n nrhs lda₂ ldb a₂ b q hq) hmat

theorem C16_mode_symmetry_witness :
    (Dpotrs (K := ℚ) Dtrsm Uplo.Upper ((2 : Nat) : Int) ((1 : Nat) : Int) [2, 1, 0, 3]
      ((2 : Nat) : Int) [4, 12] ((1 : Nat) : Int)).err = none ∧
    (Dpotrs (K := ℚ) Dtrsm Uplo.Lower ((2 : Nat) : Int) ((1 : Nat) : Int) [2, 9, 1, 3]
      ((2 : Nat) : Int) [4, 12] ((1 : Nat) : Int)).err = none ∧
    rhsMatrix (Dpotrs (K := ℚ) Dtrsm Uplo.Upper ((2 : Nat) : Int) ((1 : Nat) : Int)
        [2, 1, 0, 3] ((2 : Nat) : Int) [4, 12] ((1 : Nat) : Int)).b 1 2 1 =
      rhsMatrix (Dpotrs (K := ℚ) Dtrsm Uplo.Lower ((2 : Nat) : Int) ((1 : Nat) : Int)
        [2, 9, 1, 3] ((2 : Nat) : Int) [4, 12] ((1 : Nat) : Int)).b 1 2 1 ∧
    (Dpotrs (K := ℚ) Dtrsm Uplo.Upper ((2 : Nat) : Int) ((1 : Nat) : Int) [2, 1, 0, 3]
        ((2 : Nat) : Int) [4, 12] ((1 : Nat) : Int)).b =
      (Dpotrs (K := ℚ) Dtrsm Uplo.Lower ((2 : Nat) : Int) ((1 : Nat) : Int) [2, 9, 1, 3]
        ((2 : Nat) : Int) [4, 12] ((1 : Nat) : Int)).b :=
  C16_mode_symmetry (K := ℚ) 2 1 2 2 1 [2, 1, 0, 3] [2, 9, 1, 3] [4, 12] (by decide)
    (by decide) (by decide) (by decide) (by decide) (by decide) (by decide) (by decide)
    (by intro i hi; interval_cases i <;> simp [rd])
    (by
      ext i j
      fin_cases i <;> fin_cases j <;> simp [lowerTriangle, upperTriangle, rd])

/-! ## Degenerate sizes -/

/-- C5, as amended. A call with `n = 0` or `nrhs = 0` calls no solve: whatever
the mode, strides, buffers and injected solve, both buffers are as on entry,
whether the call returns or fails. With `n, nrhs ≥ 0`, a recognised mode and
shapes that pass validation (strides at least `max(1, size)`, buffers long
enough) it returns normally. -/
theorem C5_degenerate_sizes_noop {K : Type} [One K] (dtrsm : Solver K) (uplo : Uplo)
    (n nrhs : Int) (a : List K) (lda : Int) (b : List K) (ldb : Int)
    (h0 : n = 0 ∨ nrhs = 0) :
    (Dpotrs dtrsm uplo n nrhs a lda b ldb).b = b ∧
    (Dpotrs dtrsm uplo n nrhs a lda b ldb).a = a ∧
    (0 ≤ n → 0 ≤ nrhs → (uplo = Uplo.Upper ∨ uplo = Uplo.Lower) →
      max 1 n ≤ lda → lda * (n - 1) + n ≤ (a.length : Int) →
      max 1 nrhs ≤ ldb → ldb * (n - 1) + nrhs ≤ (b.length : Int) →
      (Dpotrs dtrsm uplo n nrhs a lda b ldb).err = none) := by
  by_cases hu : uplo = Uplo.Upper ∨ uplo = Uplo.Lower
  · by_cases hv : max 1 n ≤ lda ∧ lda * (n - 1) + n ≤ (a.length : Int) ∧ max 1 nrhs ≤ ldb ∧
        ldb * (n - 1) + nrhs ≤ (b.length : Int)
    · rw [Dpotrs_valid dtrsm uplo n nrhs a lda b ldb hu hv.1 hv.2.1 hv.2.2.1 hv.2.2.2,
        if_pos h0]
      exact ⟨rfl, rfl, fun _ _ _ _ _ _ _ => rfl⟩
    · rw [Dpotrs_bad_shape dtrsm uplo n nrhs a lda b ldb hu hv]
      exact ⟨rfl, rfl, fun _ _ _ h1 h2 h3 h4 => absurd ⟨h1, h2, h3, h4⟩ hv⟩
  · rw [Dpotrs_bad_mode dtrsm uplo n nrhs a lda b ldb hu]
    exact ⟨rfl, rfl, fun _ _ h => absurd h hu⟩

theorem C5_degenerate_sizes_noop_witness :
    (Dpotrs (K := ℚ) Dtrsm Uplo.Upper 0 3 [] 1 [8, 9] 3).b = [8, 9] ∧
    (Dpotrs (K := ℚ) Dtrsm Uplo.Upper 0 3 [] 1 [8, 9] 3).err = none ∧
    (Dpotrs (K := ℚ) Dtrsm (Uplo.other 0) 0 3 [] 1 [8, 9] 3).b = [8, 9] :=
  ⟨(C5_degenerate_sizes_noop (K := ℚ) Dtrsm Uplo.Upper 0 3 [] 1 [8, 9] 3 (Or.inl rfl)).1,
    ((C5_degenerate_sizes_noop (K := ℚ) Dtrsm Uplo.Upper 0 3 [] 1 [8, 9] 3 (Or.inl rfl)).2.2
      (by decide) (by decide) (Or.inl rfl) (by decide) (by decide) (by decide) (by decide)),
    (C5_degenerate_sizes_noop (K := ℚ) Dtrsm (Uplo.other 0) 0 3 [] 1 [8, 9] 3
      (Or.inl rfl)).1⟩

/-! ## The checked solve never leaves the buffers -/

theorem foldlM_eq_some_foldl {α β : Type} (g : β → α → Option β) (f : β → α → β)
    (P : β → Prop) (l : List α) (init : β) (h0 : P init)
    (hP : ∀ t, P t → ∀ k ∈ l, P (f t k))
    (hg : ∀ t, P t → ∀ k ∈ l, g t k = some (f t k)) :
    l.foldlM g init = some (l.foldl f init) := by
  induction l generalizing init with
  | nil => rfl
  | cons k l ih =>
    rw [List.foldlM_cons, hg init h0 k (List.mem_cons_self k l)]
    exact ih (f init k) (hP init h0 k (List.mem_cons_self k l))
      (fun t ht j hj => hP t ht j (List.mem_cons_of_mem k hj))
      (fun t ht j hj => hg t ht j (List.mem_cons_of_mem k hj))

theorem substEntryChecked_eq {K : Type} [Field K] (coefC : Nat → Nat → Option K)
    (coef : Nat → Nat → K) (unitDiag : Bool) (alpha : K) (pos : Nat → Nat → Nat)
    (u s : Nat) (x : List K)
    (hc : ∀ k ≤ u, coefC u k = some (coef u k))
    (hx : ∀ k ≤ u, pos k s < x.length) :
    substEntryChecked coefC unitDiag alpha pos u s x =
      some (substEntry coef unitDiag alpha pos u s x) := by
  unfold substEntryChecked substEntry
  have hfold : (List.range u).foldlM
      (fun t k => (coefC u k).bind fun c => (x[pos k s]?).bind fun v => some (t - c * v))
      (alpha * rd x (pos u s)) =
      some ((List.range u).foldl (fun t k => t - coef u k * rd x (pos k s))
        (alpha * rd x (pos u s))) := by
    apply foldlM_eq_some_foldl _ _ (fun _ => True) _ _ trivial (fun _ _ _ _ => trivial)
    intro t _ k hk
    have hku : k ≤ u := by have := List.mem_range.1 hk; omega
    rw [hc k hku, getElem?_eq_some_rd x _ (hx k hku)]
    rfl
  rw [getElem?_eq_some_rd x _ (hx u (le_refl u)), Option.some_bind, hfold, Option.some_bind,
    hc u (le_refl u)]
  cases unitDiag <;> rfl

theorem substRowChecked_eq {K : Type} [Field K] (coefC : Nat → Nat → Option K)
    (coef : Nat → Nat → K) (unitDiag : Bool) (alpha : K) (pos : Nat → Nat → Nat)
    (S u : Nat) (x : List K)
    (hc : ∀ k ≤ u, coefC u k = some (coef u k))
    (hx : ∀ k ≤ u, ∀ s < S, pos k s < x.length) :
    substRowChecked coefC unitDiag alpha pos S u x =
      some (substRow coef unitDiag alpha pos S u x) := by
  unfold substRowChecked substRow
  apply foldlM_eq_some_foldl _ _ (fun y => y.length = x.length) _ _ rfl
  · intro y hy s _
    rw [substEntry_length, hy]
  · intro y hy s hs
    exact substEntryChecked_eq coefC coef unitDiag alpha pos u s y hc
      (fun k hk => by rw [hy]; exact hx k hk s (List.mem_range.1 hs))

theorem forwardSubstChecked_eq {K : Type} [Field K] (coefC : Nat → Nat → Option K)
    (coef : Nat → Nat → K) (unitDiag : Bool) (alpha : K) (pos : Nat → Nat → Nat)
    (U S : Nat) (x : List K)
    (hc : ∀ u < U, ∀ k ≤ u, coefC u k = some (coef u k))
    (hx : ∀ u < U, ∀ s < S, pos u s < x.length) :
    forwardSubstChecked coefC unitDiag alpha pos U S x =
      some (forwardSubst coef unitDiag alpha pos U S x) := by
  unfold forwardSubstChecked forwardSubst
  apply foldlM_eq_some_foldl _ _ (fun y => y.length = x.length) _ _ rfl
  · intro y hy u _
    rw [substRow_length, hy]
  · intro y hy u hu
    have hu2 := List.mem_range.1 hu
    exact substRowChecked_eq coefC coef unitDiag alpha pos S u y (hc u hu2)
      (fun k hk s hs => by rw [hy]; exact hx k (by omega) s hs)

theorem opEntryChecked_eq {K : Type} [Zero K] (a : List K) (lda : Nat) (tr : Bool) (i k : Nat)
    (h1 : i * lda + k < a.length) (h2 : k * lda + i < a.length) :
    opEntryChecked a lda tr i k = some (opEntry a lda tr i k) := by
  unfold opEntryChecked opEntry
  cases tr
  · simp only [Bool.false_eq_true, if_false]
    exact getElem?_eq_some_rd a _ h1
  · simp only [if_true]
    exact getElem?_eq_some_rd a _ h2

theorem dtrsmCoreChecked_eq {K : Type} [Field K] (s : Side) (ul : Uplo) (tA : Transpose)
    (d : Diag) (m n : Nat) (alpha : K) (a : List K) (lda : Nat) (b : List K) (ldb : Nat)
    (ha : ∀ i < (if s = Side.Left then m else n), ∀ j < (if s = Side.Left then m else n),
      i * lda + j < a.length)
    (hb : ∀ i < m, ∀ j < n, i * ldb + j < b.length) :
    dtrsmCoreChecked s ul tA d m n alpha a lda b ldb =
      some (dtrsmCore s ul tA d m n alpha a lda b ldb) := by
  unfold dtrsmCoreChecked dtrsmCore
  cases s
  · simp only [decide_True, if_true] at ha ⊢
    apply forwardSubstChecked_eq
    · intro u hu k hk
      apply opEntryChecked_eq
      · split_ifs <;> exact ha _ (by omega) _ (by omega)
      · split_ifs <;> exact ha _ (by omega) _ (by omega)
    · intro u hu t ht
      split_ifs <;> exact hb _ (by omega) _ ht
  · have hne : ¬ (Side.Right = Side.Left) := by decide
    simp only [hne, decide_False, if_false, Bool.false_eq_true] at ha ⊢
    apply forwardSubstChecked_eq
    · intro u hu k hk
      apply opEntryChecked_eq
      · split_ifs <;> exact ha _ (by omega) _ (by omega)
      · split_ifs <;> exact ha _ (by omega) _ (by omega)
    · intro u hu t ht
      split_ifs <;> exact hb _ ht _ (by omega)

theorem dtrsmPre_bounds {K : Type} (s : Side) (ul : Uplo) (m n : Int) (a : List K) (lda : Int)
    (b : List K) (ldb : Int) (h : dtrsmPre s ul m n a lda b ldb) :
    (∀ i < (if s = Side.Left then m.toNat else n.toNat),
      ∀ j < (if s = Side.Left then m.toNat else n.toNat), i * lda.toNat + j < a.length) ∧
    (∀ i < m.toNat, ∀ j < n.toNat, i * ldb.toNat + j < b.length) := by
  unfold dtrsmPre at h
  obtain ⟨_, hm, hn, hlda, hldb, ha, hb⟩ := h
  constructor
  · cases s
    · simp only [if_true] at hlda ha ⊢
      intro i hi j hj
      exact pos_lt lda.toNat m.toNat m.toNat a.length
        (shape_to_nat m m lda a.length (by omega) hm (by omega) ha) i j hi hj
    · have hne : ¬ (Side.Right = Side.Left) := by decide
      simp only [hne, if_false] at hlda ha ⊢
      intro i hi j hj
      exact pos_lt lda.toNat n.toNat n.toNat a.length
        (shape_to_nat n n lda a.length (by omega) hn (by omega) ha) i j hi hj
  · intro i hi j hj
    exact pos_lt ldb.toNat m.toNat n.toNat b.length
      (shape_to_nat m n ldb b.length (by omega) hn (by omega) hb) i j hi hj

theorem DtrsmChecked_eq_Dtrsm {K : Type} [Field K] :
    (DtrsmChecked : Solver K) = Dtrsm := by
  funext s ul tA d m n alpha a lda b ldb
  unfold DtrsmChecked Dtrsm
  by_cases h : dtrsmPre s ul m n a lda b ldb
  · obtain ⟨ha, hb⟩ := dtrsmPre_bounds s ul m n a lda b ldb h
    rw [if_pos h, if_pos h,
      dtrsmCoreChecked_eq s ul tA d m.toNat n.toNat alpha a lda.toNat b ldb.toNat ha hb]
  · rw [if_neg h, if_neg h]

/-- Without validation the out-of-range branch is reached: on a factor buffer
one element short the checked solve stops at the read of the last diagonal
entry. -/
theorem dtrsmCoreChecked_short_factor :
    dtrsmCoreChecked (K := ℚ) Side.Left Uplo.Upper Transpose.Trans Diag.NonUnit 2 1 1
      [2, 1, 0] 2 [4, 12] 1 = none := by
  simp [dtrsmCoreChecked, forwardSubstChecked, substRowChecked, substEntryChecked,
    opEntryChecked, List.range, List.range.loop]

/-- Without validation the out-of-range branch is reached: on a right-hand-side
buffer one element short the checked solve stops at the second row. -/
theorem dtrsmCoreChecked_short_rhs :
    dtrsmCoreChecked (K := ℚ) Side.Left Uplo.Upper Transpose.Trans Diag.NonUnit 2 1 1
      [2, 1, 0, 3] 2 [4] 1 = none := by
  simp [dtrsmCoreChecked, forwardSubstChecked, substRowChecked, substEntryChecked,
    opEntryChecked, List.range, List.range.loop]

theorem Dpotrs_two_solves {K : Type} [One K] (dtrsm : Solver K) (uplo : Uplo) (n nrhs : Int)
    (a : List K) (lda : Int) (b : List K) (ldb : Int)
    (hu : uplo = Uplo.Upper ∨ uplo = Uplo.Lower) (hn : 1 ≤ n) (hnrhs : 1 ≤ nrhs)
    (hlda : max 1 n ≤ lda) (ha : lda * (n - 1) + n ≤ (a.length : Int))
    (hldb : max 1 nrhs ≤ ldb) (hb : ldb * (n - 1) + nrhs ≤ (b.length : Int))
    (h1 : (dtrsm Side.Left uplo
      (if uplo = Uplo.Upper then Transpose.Trans else Transpose.NoTrans)
      Diag.NonUnit n nrhs 1 a lda b ldb).err = none) :
    Dpotrs dtrsm uplo n nrhs a lda b ldb =
      dtrsm Side.Left uplo (if uplo = Uplo.Upper then Transpose.NoTrans else Transpose.Trans)
        Diag.NonUnit n nrhs 1
        (dtrsm Side.Left uplo (if uplo = Uplo.Upper then Transpose.Trans else Transpose.NoTrans)
          Diag.NonUnit n nrhs 1 a lda b ldb).a lda
        (dtrsm Side.Left uplo (if uplo = Uplo.Upper then Transpose.Trans else Transpose.NoTrans)
          Diag.NonUnit n nrhs 1 a lda b ldb).b ldb := by
  rw [Dpotrs_valid dtrsm uplo n nrhs a lda b ldb hu hlda ha hldb hb]
  have h0 : ¬ (n = 0 ∨ nrhs = 0) := by omega
  rw [if_neg h0]
  rcases hu with hu | hu
  · subst hu
    simp only [if_true] at h1 ⊢
    simp only [h1]
  · subst hu
    have hne : ¬ (Uplo.Lower = Uplo.Upper) := by decide
    simp only [hne, if_false] at h1 ⊢
    simp only [h1]

theorem Dtrsm_of_pre {K : Type} [Field K] (s : Side) (ul : Uplo) (tA : Transpose) (d : Diag)
    (m n : Int) (alpha : K) (a : List K) (lda : Int) (b : List K) (ldb : Int)
    (h : dtrsmPre s ul m n a lda b ldb) :
    Dtrsm s ul tA d m n alpha a lda b ldb =
      ⟨a, dtrsmCore s ul tA d m.toNat n.toNat alpha a lda.toNat b ldb.toNat, none⟩ := by
  unfold Dtrsm
  rw [if_pos h]

/-- C14. Validation is sufficient for the solves. When the mode is recognised,
both `checkMatrix` calls pass and `n, nrhs ≥ 1`: `Dpotrs` with the reference
solve is the second solve applied to the buffers the first left and returns
normally; the arguments of the first call, and those of the second call on the
buffers the first left, meet the preconditions of the solve (strides at least
`max(1, size)`, buffers long enough); run with every buffer access checked,
`Dpotrs` has the same outcome and each of the two solves returns a buffer, so
no access of a solve is out of range; and every position `i*lda + j` (`i, j < n`)
of `a` and `i*ldb + j` (`i < n`, `j < nrhs`) of `b` is within the buffer, so that
a read there yields the stored element. -/
theorem C14_validation_suffices {K : Type} [Field K] (uplo : Uplo) (n nrhs lda ldb : Int)
    (a b : List K)
    (hu : uplo = Uplo.Upper ∨ uplo = Uplo.Lower)
    (hca : checkMatrix n n a lda = none) (hcb : checkMatrix n nrhs b ldb = none)
    (hn : 1 ≤ n) (hnrhs : 1 ≤ nrhs) :
    Dpotrs Dtrsm uplo n nrhs a lda b ldb =
      Dtrsm Side.Left uplo (if uplo = Uplo.Upper then Transpose.NoTrans else Transpose.Trans)
        Diag.NonUnit n nrhs 1
        (Dtrsm Side.Left uplo (if uplo = Uplo.Upper then Transpose.Trans else Transpose.NoTrans)
          Diag.NonUnit n nrhs 1 a lda b ldb).a lda
        (Dtrsm Side.Left uplo (if uplo = Uplo.Upper then Transpose.Trans else Transpose.NoTrans)
          Diag.NonUnit n nrhs 1 a lda b ldb).b ldb ∧
    (Dpotrs Dtrsm uplo n nrhs a lda b ldb).err = none ∧
    dtrsmPre Side.Left uplo n nrhs a lda b ldb ∧
    dtrsmPre Side.Left uplo n nrhs
      (Dtrsm Side.Left uplo (if uplo = Uplo.Upper then Transpose.Trans else Transpose.NoTrans)
        Diag.NonUnit n nrhs 1 a lda b ldb).a lda
      (Dtrsm Side.Left uplo (if uplo = Uplo.Upper then Transpose.Trans else Transpose.NoTrans)
        Diag.NonUnit n nrhs 1 a lda b ldb).b ldb ∧
    (max 1 n ≤ lda ∧ max 1 nrhs ≤ ldb ∧ lda * (n - 1) + n ≤ (a.length : Int) ∧
      ldb * (n - 1) + nrhs ≤ (b.length : Int)) ∧
    Dpotrs DtrsmChecked uplo n nrhs a lda b ldb = Dpotrs Dtrsm uplo n nrhs a lda b ldb ∧
    dtrsmCoreChecked Side.Left uplo
        (if uplo = Uplo.Upper then Transpose.Trans else Transpose.NoTrans) Diag.NonUnit
        n.toNat nrhs.toNat 1 a lda.toNat b ldb.toNat =
      some (Dtrsm Side.Left uplo
        (if uplo = Uplo.Upper then Transpose.Trans else Transpose.NoTrans)
        Diag.NonUnit n nrhs 1 a lda b ldb).b ∧
    dtrsmCoreChecked Side.Left uplo
        (if uplo = Uplo.Upper then Transpose.NoTrans else Transpose.Trans) Diag.NonUnit
        n.toNat nrhs.toNat 1
        (Dtrsm Side.Left uplo (if uplo = Uplo.Upper then Transpose.Trans else Transpose.NoTrans)
          Diag.NonUnit n nrhs 1 a lda b ldb).a lda.toNat
        (Dtrsm Side.Left uplo (if uplo = Uplo.Upper then Transpose.Trans else Transpose.NoTrans)
          Diag.NonUnit n nrhs 1 a lda b ldb).b ldb.toNat =
      some (Dpotrs Dtrsm uplo n nrhs a lda b ldb).b ∧
    (∀ i j : Nat, i < n.toNat → j < n.toNat →
      i * lda.toNat + j < a.length ∧
      a[i * lda.toNat + j]? = some (rd a (i * lda.toNat + j))) ∧
    (∀ i j : Nat, i < n.toNat → j < nrhs.toNat →
      i * ldb.toNat + j < b.length ∧
      b[i * ldb.toNat + j]? = some (rd b (i * ldb.toNat + j)) ∧
      i * ldb.toNat + j < (Dtrsm Side.Left uplo
        (if uplo = Uplo.Upper then Transpose.Trans else Transpose.NoTrans)
        Diag.NonUnit n nrhs 1 a lda b ldb).b.length) := by
  obtain ⟨hlda, ha⟩ := (checkMatrix_eq_none_iff _ _ _ _).1 hca
  obtain ⟨hldb, hb⟩ := (checkMatrix_eq_none_iff _ _ _ _).1 hcb
  have hpre : dtrsmPre Side.Left uplo n nrhs a lda b ldb := by
    unfold dtrsmPre
    simp only [if_true]
    exact ⟨hu, by omega, by omega, hlda, hldb, ha, hb⟩
  have hF := Dtrsm_of_pre Side.Left uplo
    (if uplo = Uplo.Upper then Transpose.Trans else Transpose.NoTrans) Diag.NonUnit n nrhs 1
    a lda b ldb hpre
  have hpre₂ : dtrsmPre Side.Left uplo n nrhs a lda
      (dtrsmCore Side.Left uplo
        (if uplo = Uplo.Upper then Transpose.Trans else Transpose.NoTrans) Diag.NonUnit
        n.toNat nrhs.toNat 1 a lda.toNat b ldb.toNat) ldb :=
    dtrsmPre_length_congr _ _ _ _ a _ _ b _ _ rfl (dtrsmCore_length _ _ _ _ _ _ _ _ _ _ _) hpre
  have hG := Dtrsm_of_pre Side.Left uplo
    (if uplo = Uplo.Upper then Transpose.NoTrans else Transpose.Trans) Diag.NonUnit n nrhs 1
    a lda _ ldb hpre₂
  have hD := Dpotrs_two_solves Dtrsm uplo n nrhs a lda b ldb hu hn hnrhs hlda ha hldb hb
    (by rw [hF])
  obtain ⟨hba, hbb⟩ := dtrsmPre_bounds Side.Left uplo n nrhs a lda b ldb hpre
  obtain ⟨hba₂, hbb₂⟩ := dtrsmPre_bounds Side.Left uplo n nrhs a lda _ ldb hpre₂
  simp only [if_true] at hba hba₂
  refine ⟨hD, ?_, hpre, ?_, ⟨hlda, hldb, ha, hb⟩, ?_, ?_, ?_, ?_, ?_⟩
  · rw [hD, hF, hG]
  · rw [hF]
    exact hpre₂
  · rw [DtrsmChecked_eq_Dtrsm]
  · rw [hF]
    exact dtrsmCoreChecked_eq _ _ _ _ _ _ _ _ _ _ _ (by simpa only [if_true] using hba) hbb
  · rw [hD, hF, hG]
    exact dtrsmCoreChecked_eq _ _ _ _ _ _ _ _ _ _ _ (by simpa only [if_true] using hba₂) hbb₂
  · intro i j hi hj
    exact ⟨hba i hi j hj, getElem?_eq_some_rd a _ (hba i hi j hj)⟩
  · intro i j hi hj
    refine ⟨hbb i hi j hj, getElem?_eq_some_rd b _ (hbb i hi j hj), ?_⟩
    rw [hF]
    exact hbb₂ i hi j hj

theorem C14_validation_suffices_witness :
    (Dpotrs (K := ℚ) Dtrsm Uplo.Upper 2 1 [2, 1, 0, 3] 2 [4, 12] 1).err = none ∧
    dtrsmPre Side.Left Uplo.Upper 2 1 ([2, 1, 0, 3] : List ℚ) 2 ([4, 12] : List ℚ) 1 ∧
    Dpotrs (K := ℚ) DtrsmChecked Uplo.Upper 2 1 [2, 1, 0, 3] 2 [4, 12] 1 =
      Dpotrs (K := ℚ) Dtrsm Uplo.Upper 2 1 [2, 1, 0, 3] 2 [4, 12] 1 := by
  have h := C14_validation_suffices (K := ℚ) Uplo.Upper 2 1 2 1 [2, 1, 0, 3] [4, 12]
    (Or.inl rfl) (by decide) (by decide) (by decide) (by decide)
  exact ⟨h.2.1, h.2.2.1, h.2.2.2.2.2.1⟩

end Gonum
